import Mathlib

/-!
Verification of the fire-prox document-proxy and mutation-tracking engine.

This development shallowly embeds the core of the fire-prox library:

* `firestore_constraints.py` — field-name and nesting-depth validation
  (`validate_field_name`, `validate_nesting_depth`);
* `proxied_map.py` / `proxied_list.py` — the recursive proxy wrapping
  (`_wrap_value`, `_unwrap_value`) and every mutating container operation
  (`ProxiedMap.__setitem__`, `pop`, `ProxiedList.append`, ...);
* `base_fire_object.py` — the shared dirty/deleted/atomic tracking state of
  `BaseFireObject` (`__setattr__`, `__delattr__`, `increment`, `array_union`,
  `array_remove`, `is_dirty`, `_mark_clean`, `_transition_to_loaded`,
  `to_dict`);
* `fire_object.py` — the lifecycle checks of the synchronous
  `FireObject.fetch`/`FireObject.delete`.

Python dictionaries are embedded as insertion-ordered association lists,
Python sets as duplicate-free lists up to membership, exceptions as `Except`
(an operation that raises before mutating leaves the embedded state
unchanged, exactly as the source object survives the raised exception).
-/

namespace FireProx

/-- Error taxonomy. `CErr` tags the distinct raise sites of
`FirestoreConstraintError` in firestore_constraints.py. -/
inductive CErr where
| emptyName
| dunderName
| whitespaceName
| nameTooLong
| depthExceeded
deriving DecidableEq

/-- Python-level exceptions raised by the embedded methods. -/
inductive PyErr where
| constraint : CErr → PyErr
| keyErr
| indexErr
| valueErr
| typeErr
| attributeErr
| runtimeErr
deriving DecidableEq

/-- Firestore limit: maximum nesting depth (firestore_constraints.py). -/
def MAX_NESTING_DEPTH : Nat := 20

/-- Firestore limit: maximum field-name length in UTF-8 bytes
(firestore_constraints.py). -/
def MAX_FIELD_NAME_BYTES : Nat := 1500

/-- UTF-8 byte length of a field name, as computed by Python's
`len(name.encode('utf-8'))`. -/
def utf8Len (s : String) : Nat := (s.data.map Char.utf8Size).sum

/-- Characters stripped by Python's `str.strip()` (the ASCII whitespace
characters; the claims only involve these). -/
def isPyWs (c : Char) : Bool :=
  c == ' ' || c == '\t' || c == '\n' || c == '\r' ||
    c == Char.ofNat 11 || c == Char.ofNat 12

/-- Python's `name.strip()`: drop whitespace from both ends. -/
def pyStrip (s : String) : String :=
  String.mk (((s.data.dropWhile isPyWs).reverse.dropWhile isPyWs).reverse)

/-- Python's `name.startswith("__")`. -/
def startsDunder (s : String) : Bool := s.data.take 2 == ['_', '_']

/-- Python's `name.endswith("__")`. -/
def endsDunder (s : String) : Bool := s.data.reverse.take 2 == ['_', '_']

/-- Embedding of `validate_field_name(name, depth)` from
firestore_constraints.py: empty names, `__name__`-pattern names, names with
leading/trailing whitespace, and names longer than 1500 UTF-8 bytes raise
`FirestoreConstraintError`, in that order of checks. The `depth` argument
only feeds the error message in the source, so it does not affect the
result. -/
def validate_field_name (name : String) (depth : Nat) : Except CErr Unit :=
  if name.isEmpty then .error .emptyName
  else if startsDunder name && endsDunder name then .error .dunderName
  else if name ≠ pyStrip name then .error .whitespaceName
  else if MAX_FIELD_NAME_BYTES < utf8Len name then .error .nameTooLong
  else .ok ()

/-- Embedding of `validate_nesting_depth(depth)` from
firestore_constraints.py: raises whenever `depth >= MAX_NESTING_DEPTH`. -/
def validate_nesting_depth (depth : Nat) : Except CErr Unit :=
  if MAX_NESTING_DEPTH ≤ depth then .error .depthExceeded else .ok ()

/-- A field name passes validation (the depth argument is irrelevant). -/
def nameOk (name : String) : Bool :=
  match validate_field_name name 0 with
  | .ok _ => true
  | .error _ => false

theorem validate_field_name_depth_irrel (name : String) (d e : Nat) :
    validate_field_name name d = validate_field_name name e := rfl

theorem validate_field_name_ok_iff (name : String) (depth : Nat) :
    validate_field_name name depth = .ok () ↔
      (name.isEmpty = false ∧ (startsDunder name && endsDunder name) = false ∧
        pyStrip name = name ∧ utf8Len name ≤ MAX_FIELD_NAME_BYTES) := by
  unfold validate_field_name
  split_ifs with h1 h2 h3 h4
  · exact ⟨(fun h => nomatch h), fun h => absurd h1 (by simp [h.1])⟩
  · exact ⟨(fun h => nomatch h), fun h => absurd h2 (by simp [h.2.1])⟩
  · exact ⟨(fun h => nomatch h), fun h => absurd h.2.2.1.symm h3⟩
  · exact ⟨(fun h => nomatch h), fun h => absurd h4 (Nat.not_lt.mpr h.2.2.2)⟩
  · refine ⟨fun _ => ⟨?_, ?_, ?_, ?_⟩, fun _ => rfl⟩
    · simpa using h1
    · simpa using h2
    · exact (not_ne_iff.mp h3).symm
    · exact Nat.le_of_not_lt h4

/-! ## Values and proxy containers

`Val` is the universe of Python values the engine handles: scalars
(`prim`/`vstr`), plain `dict`/`list`, and the proxy containers `ProxiedMap`
(`pmap`, carrying `_field_path` and `_depth`) and `ProxiedList` (`parr`).
Dicts are insertion-ordered association lists, as in Python 3.7+. -/

inductive Val where
| prim : Int → Val
| vstr : String → Val
| dict : List (String × Val) → Val
| arr : List Val → Val
| pmap : String → Nat → List (String × Val) → Val
| parr : String → Nat → List Val → Val

mutual

/-- Embedding of `_wrap_value(value, parent, field_path, depth)` from
proxied_map.py together with the constructors `ProxiedMap.__init__` and
`ProxiedList.__init__`: the depth is validated first, a dict becomes a
`ProxiedMap` (each key validated at the container's depth, each child
wrapped at `depth + 1`), a list becomes a `ProxiedList` (children wrapped
at `depth + 1`), every other value — including an already-proxied one — is
returned unchanged. The `parent` back-reference carries no data relevant to
these claims and is omitted from the embedding. -/

def wrap (v : Val) (fieldPath : String) (depth : Nat) : Except CErr Val :=
  match validate_nesting_depth depth with
  | .error e => .error e
  | .ok _ =>
    match v with
    | .dict es =>
      match wrapEntries es fieldPath depth with
      | .error e => .error e
      | .ok ws => .ok (.pmap fieldPath depth ws)
    | .arr xs =>
      match wrapItems xs fieldPath depth with
      | .error e => .error e
      | .ok ws => .ok (.parr fieldPath depth ws)
    | other => .ok other

/-- Loop body of `ProxiedMap.__init__`: validate each key at the map's own
depth, wrap each value one level deeper. -/
def wrapEntries (es : List (String × Val)) (fieldPath : String) (depth : Nat) :
    Except CErr (List (String × Val)) :=
  match es with
  | [] => .ok []
  | (k, v) :: rest =>
    match validate_field_name k depth with
    | .error e => .error e
    | .ok _ =>
      match wrap v fieldPath (depth + 1) with
      | .error e => .error e
      | .ok w =>
        match wrapEntries rest fieldPath depth with
        | .error e => .error e
        | .ok ws => .ok ((k, w) :: ws)

/-- Loop body of `ProxiedList.__init__`: wrap each item one level deeper. -/
def wrapItems (xs : List Val) (fieldPath : String) (depth : Nat) :
    Except CErr (List Val) :=
  match xs with
  | [] => .ok []
  | v :: rest =>
    match wrap v fieldPath (depth + 1) with
    | .error e => .error e
    | .ok w =>
      match wrapItems rest fieldPath depth with
      | .error e => .error e
      | .ok ws => .ok (w :: ws)

end

mutual

/-- Embedding of `_unwrap_value(value)` from proxied_map.py: a `ProxiedMap`
becomes a plain dict of unwrapped values, a `ProxiedList` a plain list of
unwrapped items, and anything else — including a plain dict or list — is
returned unchanged. -/

def unwrap : Val → Val
  | .pmap _ _ es => .dict (unwrapEntries es)
  | .parr _ _ xs => .arr (unwrapItems xs)
  | .prim n => .prim n
  | .vstr s => .vstr s
  | .dict es => .dict es
  | .arr xs => .arr xs

def unwrapEntries : List (String × Val) → List (String × Val)
  | [] => []
  | (k, v) :: rest => (k, unwrap v) :: unwrapEntries rest

def unwrapItems : List Val → List Val
  | [] => []
  | v :: rest => unwrap v :: unwrapItems rest

end

mutual

/-- A value contains no `ProxiedMap` or `ProxiedList` instance anywhere. -/

def proxyFree : Val → Bool
  | .prim _ => true
  | .vstr _ => true
  | .dict es => proxyFreeEntries es
  | .arr xs => proxyFreeItems xs
  | .pmap _ _ _ => false
  | .parr _ _ _ => false

def proxyFreeEntries : List (String × Val) → Bool
  | [] => true
  | (_, v) :: rest => proxyFree v && proxyFreeEntries rest

def proxyFreeItems : List Val → Bool
  | [] => true
  | v :: rest => proxyFree v && proxyFreeItems rest

end

mutual

/-- Every proxy container occurring anywhere inside the value stores `f` as
its `_field_path`. -/

def pathsAre (f : String) : Val → Bool
  | .prim _ => true
  | .vstr _ => true
  | .dict es => pathsAreEntries f es
  | .arr xs => pathsAreItems f xs
  | .pmap g _ es => (g == f) && pathsAreEntries f es
  | .parr g _ xs => (g == f) && pathsAreItems f xs

def pathsAreEntries (f : String) : List (String × Val) → Bool
  | [] => true
  | (_, v) :: rest => pathsAre f v && pathsAreEntries f rest

def pathsAreItems (f : String) : List Val → Bool
  | [] => true
  | v :: rest => pathsAre f v && pathsAreItems f rest

end

/-- `Occurs sub v` means `sub` is reachable from `v` through dict entries,
list items, and proxy-container children (including `sub = v` itself): the
sub-values a caller can reach and mutate through the returned proxies. -/
inductive Occurs : Val → Val → Prop where
| refl (v : Val) : Occurs v v
| inDict {sub w : Val} {k : String} {es : List (String × Val)} :
    (k, w) ∈ es → Occurs sub w → Occurs sub (.dict es)
| inArr {sub w : Val} {xs : List Val} :
    w ∈ xs → Occurs sub w → Occurs sub (.arr xs)
| inPmap {sub w : Val} {k g : String} {d : Nat} {es : List (String × Val)} :
    (k, w) ∈ es → Occurs sub w → Occurs sub (.pmap g d es)
| inParr {sub w : Val} {g : String} {d : Nat} {xs : List Val} :
    w ∈ xs → Occurs sub w → Occurs sub (.parr g d xs)

/-! Constructor-specialised equations for the mutual definitions, provable
by definitional unfolding. -/

theorem wrap_prim (n : Int) (f : String) (d : Nat) :
    wrap (.prim n) f d =
      match validate_nesting_depth d with
      | .error e => .error e
      | .ok _ => .ok (.prim n) := rfl

theorem wrap_vstr (s : String) (f : String) (d : Nat) :
    wrap (.vstr s) f d =
      match validate_nesting_depth d with
      | .error e => .error e
      | .ok _ => .ok (.vstr s) := rfl

theorem wrap_dict (es : List (String × Val)) (f : String) (d : Nat) :
    wrap (.dict es) f d =
      match validate_nesting_depth d with
      | .error e => .error e
      | .ok _ =>
        match wrapEntries es f d with
        | .error e => .error e
        | .ok ws => .ok (.pmap f d ws) := rfl

theorem wrap_arr (xs : List Val) (f : String) (d : Nat) :
    wrap (.arr xs) f d =
      match validate_nesting_depth d with
      | .error e => .error e
      | .ok _ =>
        match wrapItems xs f d with
        | .error e => .error e
        | .ok ws => .ok (.parr f d ws) := rfl

theorem wrap_pmap (g : String) (dd : Nat) (es : List (String × Val))
    (f : String) (d : Nat) :
    wrap (.pmap g dd es) f d =
      match validate_nesting_depth d with
      | .error e => .error e
      | .ok _ => .ok (.pmap g dd es) := rfl

theorem wrap_parr (g : String) (dd : Nat) (xs : List Val)
    (f : String) (d : Nat) :
    wrap (.parr g dd xs) f d =
      match validate_nesting_depth d with
      | .error e => .error e
      | .ok _ => .ok (.parr g dd xs) := rfl

theorem wrapEntries_nil (f : String) (d : Nat) :
    wrapEntries [] f d = .ok [] := rfl

theorem wrapEntries_cons (k : String) (v : Val) (rest : List (String × Val))
    (f : String) (d : Nat) :
    wrapEntries ((k, v) :: rest) f d =
      match validate_field_name k d with
      | .error e => .error e
      | .ok _ =>
        match wrap v f (d + 1) with
        | .error e => .error e
        | .ok w =>
          match wrapEntries rest f d with
          | .error e => .error e
          | .ok ws => .ok ((k, w) :: ws) := rfl

theorem wrapItems_nil (f : String) (d : Nat) :
    wrapItems [] f d = .ok [] := rfl

theorem wrapItems_cons (v : Val) (rest : List Val) (f : String) (d : Nat) :
    wrapItems (v :: rest) f d =
      match wrap v f (d + 1) with
      | .error e => .error e
      | .ok w =>
        match wrapItems rest f d with
        | .error e => .error e
        | .ok ws => .ok (w :: ws) := rfl

/-! ## Round trip: wrapping then unwrapping is the identity -/

mutual

theorem unwrap_wrap (v : Val) (f : String) (d : Nat) (w : Val)
    (hp : proxyFree v = true) (hw : wrap v f d = .ok w) : unwrap w = v := by
  cases v with
  | prim n =>
    rw [wrap_prim] at hw
    split at hw
    · exact Except.noConfusion hw
    · cases hw; rfl
  | vstr s =>
    rw [wrap_vstr] at hw
    split at hw
    · exact Except.noConfusion hw
    · cases hw; rfl
  | dict es =>
    rw [wrap_dict] at hw
    split at hw
    · exact Except.noConfusion hw
    · split at hw
      · exact Except.noConfusion hw
      · rename_i ws hws
        cases hw
        have e2 : unwrapEntries ws = es :=
          unwrapEntries_wrapEntries es f d ws (by simpa [proxyFree] using hp) hws
        simp [unwrap, e2]
  | arr xs =>
    rw [wrap_arr] at hw
    split at hw
    · exact Except.noConfusion hw
    · split at hw
      · exact Except.noConfusion hw
      · rename_i ws hws
        cases hw
        have e2 : unwrapItems ws = xs :=
          unwrapItems_wrapItems xs f d ws (by simpa [proxyFree] using hp) hws
        simp [unwrap, e2]
  | pmap g dd es => simp [proxyFree] at hp
  | parr g dd xs => simp [proxyFree] at hp

theorem unwrapEntries_wrapEntries (es : List (String × Val)) (f : String)
    (d : Nat) (ws : List (String × Val))
    (hp : proxyFreeEntries es = true) (hw : wrapEntries es f d = .ok ws) :
    unwrapEntries ws = es := by
  cases es with
  | nil =>
    rw [wrapEntries_nil] at hw
    cases hw
    rfl
  | cons kv rest =>
    obtain ⟨k, v⟩ := kv
    rw [wrapEntries_cons] at hw
    split at hw
    · exact Except.noConfusion hw
    · split at hw
      · exact Except.noConfusion hw
      · rename_i w1 hw1
        split at hw
        · exact Except.noConfusion hw
        · rename_i ws1 hws1
          cases hw
          have hpv : proxyFree v = true := by
            simp [proxyFreeEntries] at hp
            exact hp.1
          have hpr : proxyFreeEntries rest = true := by
            simp [proxyFreeEntries] at hp
            exact hp.2
          have e1 : unwrap w1 = v := unwrap_wrap v f (d + 1) w1 hpv hw1
          have e2 : unwrapEntries ws1 = rest :=
            unwrapEntries_wrapEntries rest f d ws1 hpr hws1
          simp [unwrapEntries, e1, e2]

theorem unwrapItems_wrapItems (xs : List Val) (f : String) (d : Nat)
    (ws : List Val)
    (hp : proxyFreeItems xs = true) (hw : wrapItems xs f d = .ok ws) :
    unwrapItems ws = xs := by
  cases xs with
  | nil =>
    rw [wrapItems_nil] at hw
    cases hw
    rfl
  | cons v rest =>
    rw [wrapItems_cons] at hw
    split at hw
    · exact Except.noConfusion hw
    · rename_i w1 hw1
      split at hw
      · exact Except.noConfusion hw
      · rename_i ws1 hws1
        cases hw
        have hpv : proxyFree v = true := by
          simp [proxyFreeItems] at hp
          exact hp.1
        have hpr : proxyFreeItems rest = true := by
          simp [proxyFreeItems] at hp
          exact hp.2
        have e1 : unwrap w1 = v := unwrap_wrap v f (d + 1) w1 hpv hw1
        have e2 : unwrapItems ws1 = rest :=
          unwrapItems_wrapItems rest f d ws1 hpr hws1
        simp [unwrapItems, e1, e2]

end

/-! ## Field-path invariance: wrapping stamps the same top-level field path
on every proxy container it creates -/

mutual

theorem pathsAre_wrap (v : Val) (f : String) (d : Nat) (w : Val)
    (hp : proxyFree v = true) (hw : wrap v f d = .ok w) :
    pathsAre f w = true := by
  cases v with
  | prim n =>
    rw [wrap_prim] at hw
    split at hw
    · exact Except.noConfusion hw
    · cases hw; rfl
  | vstr s =>
    rw [wrap_vstr] at hw
    split at hw
    · exact Except.noConfusion hw
    · cases hw; rfl
  | dict es =>
    rw [wrap_dict] at hw
    split at hw
    · exact Except.noConfusion hw
    · split at hw
      · exact Except.noConfusion hw
      · rename_i ws hws
        cases hw
        have e2 : pathsAreEntries f ws = true :=
          pathsAre_wrapEntries es f d ws (by simpa [proxyFree] using hp) hws
        simp [pathsAre, e2]
  | arr xs =>
    rw [wrap_arr] at hw
    split at hw
    · exact Except.noConfusion hw
    · split at hw
      · exact Except.noConfusion hw
      · rename_i ws hws
        cases hw
        have e2 : pathsAreItems f ws = true :=
          pathsAre_wrapItems xs f d ws (by simpa [proxyFree] using hp) hws
        simp [pathsAre, e2]
  | pmap g dd es => simp [proxyFree] at hp
  | parr g dd xs => simp [proxyFree] at hp

theorem pathsAre_wrapEntries (es : List (String × Val)) (f : String)
    (d : Nat) (ws : List (String × Val))
    (hp : proxyFreeEntries es = true) (hw : wrapEntries es f d = .ok ws) :
    pathsAreEntries f ws = true := by
  cases es with
  | nil =>
    rw [wrapEntries_nil] at hw
    cases hw
    rfl
  | cons kv rest =>
    obtain ⟨k, v⟩ := kv
    rw [wrapEntries_cons] at hw
    split at hw
    · exact Except.noConfusion hw
    · split at hw
      · exact Except.noConfusion hw
      · rename_i w1 hw1
        split at hw
        · exact Except.noConfusion hw
        · rename_i ws1 hws1
          cases hw
          have hpv : proxyFree v = true := by
            simp [proxyFreeEntries] at hp
            exact hp.1
          have hpr : proxyFreeEntries rest = true := by
            simp [proxyFreeEntries] at hp
            exact hp.2
          have e1 := pathsAre_wrap v f (d + 1) w1 hpv hw1
          have e2 := pathsAre_wrapEntries rest f d ws1 hpr hws1
          simp [pathsAreEntries, e1, e2]

theorem pathsAre_wrapItems (xs : List Val) (f : String) (d : Nat)
    (ws : List Val)
    (hp : proxyFreeItems xs = true) (hw : wrapItems xs f d = .ok ws) :
    pathsAreItems f ws = true := by
  cases xs with
  | nil =>
    rw [wrapItems_nil] at hw
    cases hw
    rfl
  | cons v rest =>
    rw [wrapItems_cons] at hw
    split at hw
    · exact Except.noConfusion hw
    · rename_i w1 hw1
      split at hw
      · exact Except.noConfusion hw
      · rename_i ws1 hws1
        cases hw
        have hpv : proxyFree v = true := by
          simp [proxyFreeItems] at hp
          exact hp.1
        have hpr : proxyFreeItems rest = true := by
          simp [proxyFreeItems] at hp
          exact hp.2
        have e1 := pathsAre_wrap v f (d + 1) w1 hpv hw1
        have e2 := pathsAre_wrapItems rest f d ws1 hpr hws1
        simp [pathsAreItems, e1, e2]

end

theorem pathsAreEntries_mem {f k : String} {w : Val}
    {es : List (String × Val)}
    (h : pathsAreEntries f es = true) (hm : (k, w) ∈ es) :
    pathsAre f w = true := by
  induction es with
  | nil => cases hm
  | cons kv rest ih =>
    obtain ⟨k1, v1⟩ := kv
    simp [pathsAreEntries] at h
    rcases List.mem_cons.mp hm with h1 | h1
    · cases h1; exact h.1
    · exact ih h.2 h1

theorem pathsAreItems_mem {f : String} {w : Val} {xs : List Val}
    (h : pathsAreItems f xs = true) (hm : w ∈ xs) :
    pathsAre f w = true := by
  induction xs with
  | nil => cases hm
  | cons v rest ih =>
    simp [pathsAreItems] at h
    rcases List.mem_cons.mp hm with h1 | h1
    · cases h1; exact h.1
    · exact ih h.2 h1

/-- Any value reachable inside a value whose proxies all carry path `f`
itself has all its proxies carrying path `f`. -/
theorem pathsAre_of_occurs {sub v : Val} (hocc : Occurs sub v) :
    ∀ f : String, pathsAre f v = true → pathsAre f sub = true := by
  induction hocc with
  | refl => exact fun f h => h
  | inDict hm _ ih =>
    intro f h
    exact ih f (pathsAreEntries_mem (by simpa [pathsAre] using h) hm)
  | inArr hm _ ih =>
    intro f h
    exact ih f (pathsAreItems_mem (by simpa [pathsAre] using h) hm)
  | inPmap hm _ ih =>
    intro f h
    simp [pathsAre] at h
    exact ih f (pathsAreEntries_mem h.2 hm)
  | inParr hm _ ih =>
    intro f h
    simp [pathsAre] at h
    exact ih f (pathsAreItems_mem h.2 hm)

/-- A proxy map reachable inside a wrapped value stores the wrapping
top-level field path. -/
theorem occurs_pmap_path {v w : Val} {f g : String} {d dd : Nat}
    {es : List (String × Val)}
    (hp : proxyFree v = true) (hw : wrap v f d = .ok w)
    (hocc : Occurs (.pmap g dd es) w) : g = f := by
  have h1 := pathsAre_of_occurs hocc f (pathsAre_wrap v f d w hp hw)
  simp [pathsAre] at h1
  exact h1.1

/-- A proxy list reachable inside a wrapped value stores the wrapping
top-level field path. -/
theorem occurs_parr_path {v w : Val} {f g : String} {d dd : Nat}
    {xs : List Val}
    (hp : proxyFree v = true) (hw : wrap v f d = .ok w)
    (hocc : Occurs (.parr g dd xs) w) : g = f := by
  have h1 := pathsAre_of_occurs hocc f (pathsAre_wrap v f d w hp hw)
  simp [pathsAre] at h1
  exact h1.1

/-! ## Depth characterisation of wrapping -/

/-- Whether an `Except` result is a success. -/
def okB {α : Type} (r : Except CErr α) : Bool :=
  match r with
  | .ok _ => true
  | .error _ => false

mutual

/-- Depth head-room a value needs: `wrap v f d` succeeds exactly when
`d + need v ≤ MAX_NESTING_DEPTH` (and all dict keys validate). Every value
consumes one level because `_wrap_value` validates the depth before looking
at the value; a dict or list additionally needs room for its children. -/
def need : Val → Nat
  | .prim _ => 1
  | .vstr _ => 1
  | .dict es => 1 + needEntries es
  | .arr xs => 1 + needItems xs
  | .pmap _ _ _ => 1
  | .parr _ _ _ => 1

def needEntries : List (String × Val) → Nat
  | [] => 0
  | (_, v) :: rest => max (need v) (needEntries rest)

def needItems : List Val → Nat
  | [] => 0
  | v :: rest => max (need v) (needItems rest)

end

mutual

/-- All dict keys in the value (at any level reached by wrapping) pass
field-name validation. Contents of already-proxied values are not checked,
mirroring `_wrap_value` returning them unchanged. -/
def keysOk : Val → Bool
  | .prim _ => true
  | .vstr _ => true
  | .dict es => keysOkEntries es
  | .arr xs => keysOkItems xs
  | .pmap _ _ _ => true
  | .parr _ _ _ => true

def keysOkEntries : List (String × Val) → Bool
  | [] => true
  | (k, v) :: rest => nameOk k && keysOk v && keysOkEntries rest

def keysOkItems : List Val → Bool
  | [] => true
  | v :: rest => keysOk v && keysOkItems rest

end

theorem need_pos (v : Val) : 1 ≤ need v := by
  cases v <;> simp [need]

theorem needEntries_mem {kv : String × Val} {es : List (String × Val)}
    (h : kv ∈ es) : need kv.2 ≤ needEntries es := by
  induction es with
  | nil => cases h
  | cons kv1 rest ih =>
    obtain ⟨k1, v1⟩ := kv1
    rcases List.mem_cons.mp h with h1 | h1
    · cases h1; simp [needEntries]
    · calc need kv.2 ≤ needEntries rest := ih h1
        _ ≤ needEntries ((k1, v1) :: rest) := by simp [needEntries]

theorem needItems_mem {v : Val} {xs : List Val} (h : v ∈ xs) :
    need v ≤ needItems xs := by
  induction xs with
  | nil => cases h
  | cons v1 rest ih =>
    rcases List.mem_cons.mp h with h1 | h1
    · cases h1; simp [needItems]
    · calc need v ≤ needItems rest := ih h1
        _ ≤ needItems (v1 :: rest) := by simp [needItems]

theorem needEntries_le {m : Nat} {es : List (String × Val)}
    (h : ∀ kv ∈ es, need kv.2 ≤ m) : needEntries es ≤ m ∨ es = [] := by
  induction es with
  | nil => exact Or.inr rfl
  | cons kv rest ih =>
    obtain ⟨k, v⟩ := kv
    left
    have h1 : need v ≤ m := h (k, v) (List.mem_cons_self _ _)
    have h2 : ∀ kv ∈ rest, need kv.2 ≤ m := fun kv hm => h kv (List.mem_cons_of_mem _ hm)
    rcases ih h2 with h3 | h3
    · simp [needEntries]
      exact ⟨h1, h3⟩
    · subst h3
      simp [needEntries]
      exact h1
  
theorem needItems_le {m : Nat} {xs : List Val}
    (h : ∀ v ∈ xs, need v ≤ m) : needItems xs ≤ m ∨ xs = [] := by
  induction xs with
  | nil => exact Or.inr rfl
  | cons v rest ih =>
    left
    have h1 : need v ≤ m := h v (List.mem_cons_self _ _)
    have h2 : ∀ w ∈ rest, need w ≤ m := fun w hm => h w (List.mem_cons_of_mem _ hm)
    rcases ih h2 with h3 | h3
    · simp [needItems]
      exact ⟨h1, h3⟩
    · subst h3
      simp [needItems]
      exact h1

mutual

theorem wrap_ok_iff (v : Val) (f : String) (d : Nat) :
    okB (wrap v f d) = true ↔
      (d + need v ≤ MAX_NESTING_DEPTH ∧ keysOk v = true) := by
  by_cases hd : MAX_NESTING_DEPTH ≤ d
  · have hv : validate_nesting_depth d = .error .depthExceeded := by
      simp [validate_nesting_depth, hd]
    have hno : ¬ (d + need v ≤ MAX_NESTING_DEPTH) := by
      have := need_pos v
      omega
    cases v <;>
      simp [wrap_prim, wrap_vstr, wrap_dict, wrap_arr, wrap_pmap, wrap_parr,
        hv, okB, hno]
  · have hv : validate_nesting_depth d = .ok () := by
      simp [validate_nesting_depth, hd]
    cases v with
    | prim n =>
      simp [wrap_prim, hv, okB, need, keysOk]
      omega
    | vstr s =>
      simp [wrap_vstr, hv, okB, need, keysOk]
      omega
    | pmap g dd es =>
      simp [wrap_pmap, hv, okB, need, keysOk]
      omega
    | parr g dd xs =>
      simp [wrap_parr, hv, okB, need, keysOk]
      omega
    | dict es =>
      rw [wrap_dict, hv]
      have hes := wrapEntries_ok_iff es f d
      constructor
      · intro h
        have hok : okB (wrapEntries es f d) = true := by
          revert h
          cases wrapEntries es f d <;> simp [okB]
        have h2 := hes.mp hok
        refine ⟨?_, by simpa [keysOk] using h2.1⟩
        have h5 : ∀ kv ∈ es, need kv.2 ≤ MAX_NESTING_DEPTH - (d + 1) := by
          intro kv hm
          have := h2.2 kv hm
          omega
        rcases needEntries_le h5 with h3 | h3
        · simp [need]
          omega
        · subst h3
          simp [need, needEntries]
          omega
      · intro h
        have h1 : ∀ kv ∈ es, d + 1 + need kv.2 ≤ MAX_NESTING_DEPTH := by
          intro kv hm
          have := needEntries_mem hm
          have h4 : d + need (Val.dict es) ≤ MAX_NESTING_DEPTH := h.1
          simp [need] at h4
          omega
        have hok := hes.mpr ⟨by simpa [keysOk] using h.2, h1⟩
        revert hok
        cases wrapEntries es f d <;> simp [okB]
    | arr xs =>
      rw [wrap_arr, hv]
      have hxs := wrapItems_ok_iff xs f d
      constructor
      · intro h
        have hok : okB (wrapItems xs f d) = true := by
          revert h
          cases wrapItems xs f d <;> simp [okB]
        have h2 := hxs.mp hok
        refine ⟨?_, by simpa [keysOk] using h2.1⟩
        have h5 : ∀ v ∈ xs, need v ≤ MAX_NESTING_DEPTH - (d + 1) := by
          intro v hm
          have := h2.2 v hm
          omega
        rcases needItems_le h5 with h3 | h3
        · simp [need]
          omega
        · subst h3
          simp [need, needItems]
          omega
      · intro h
        have h1 : ∀ v ∈ xs, d + 1 + need v ≤ MAX_NESTING_DEPTH := by
          intro v hm
          have := needItems_mem hm
          have h4 : d + need (Val.arr xs) ≤ MAX_NESTING_DEPTH := h.1
          simp [need] at h4
          omega
        have hok := hxs.mpr ⟨by simpa [keysOk] using h.2, h1⟩
        revert hok
        cases wrapItems xs f d <;> simp [okB]

theorem wrapEntries_ok_iff (es : List (String × Val)) (f : String) (d : Nat) :
    okB (wrapEntries es f d) = true ↔
      (keysOkEntries es = true ∧
        ∀ kv ∈ es, d + 1 + need kv.2 ≤ MAX_NESTING_DEPTH) := by
  cases es with
  | nil => simp [wrapEntries_nil, okB, keysOkEntries]
  | cons kv rest =>
    obtain ⟨k, v⟩ := kv
    rw [wrapEntries_cons]
    have hv := wrap_ok_iff v f (d + 1)
    have hrest := wrapEntries_ok_iff rest f d
    by_cases hk : nameOk k = true
    · have hkv : validate_field_name k d = .ok () := by
        have : validate_field_name k d = validate_field_name k 0 :=
          validate_field_name_depth_irrel k d 0
        rw [this]
        revert hk
        unfold nameOk
        cases h0 : validate_field_name k 0 with
        | ok u => cases u; simp
        | error e => simp
      rw [hkv]
      cases hw : wrap v f (d + 1) with
      | error e =>
        have hnv : ¬ (d + 1 + need v ≤ MAX_NESTING_DEPTH ∧ keysOk v = true) := by
          rw [← hv, hw]
          simp [okB]
        constructor
        · intro h
          exact absurd h (by simp [okB])
        · rintro ⟨h1, h2⟩
          simp [keysOkEntries] at h1
          exact absurd ⟨h2 (k, v) (List.mem_cons_self _ _), h1.1.2⟩ hnv
      | ok w =>
        have hvok : d + 1 + need v ≤ MAX_NESTING_DEPTH ∧ keysOk v = true := by
          rw [← hv, hw]
          simp [okB]
        cases hwr : wrapEntries rest f d with
        | error e =>
          have hnr : ¬ (keysOkEntries rest = true ∧
              ∀ kv ∈ rest, d + 1 + need kv.2 ≤ MAX_NESTING_DEPTH) := by
            rw [← hrest, hwr]
            simp [okB]
          constructor
          · intro h
            exact absurd h (by simp [okB])
          · rintro ⟨h1, h2⟩
            simp [keysOkEntries] at h1
            refine absurd ⟨h1.2, fun kv hm => h2 kv (List.mem_cons_of_mem _ hm)⟩ hnr
        | ok ws =>
          have hr : keysOkEntries rest = true ∧
              ∀ kv ∈ rest, d + 1 + need kv.2 ≤ MAX_NESTING_DEPTH := by
            rw [← hrest, hwr]
            simp [okB]
          simp only [okB]
          constructor
          · intro _
            refine ⟨by simp [keysOkEntries, hk, hvok.2, hr.1], ?_⟩
            intro kv hm
            rcases List.mem_cons.mp hm with h1 | h1
            · cases h1; exact hvok.1
            · exact hr.2 kv h1
          · intro _
            trivial
    · have hkerr : ∃ e, validate_field_name k d = .error e := by
        have heq : validate_field_name k d = validate_field_name k 0 :=
          validate_field_name_depth_irrel k d 0
        rw [heq]
        revert hk
        unfold nameOk
        cases h0 : validate_field_name k 0 with
        | ok u => simp
        | error e => exact fun _ => ⟨e, rfl⟩
      obtain ⟨e, he⟩ := hkerr
      rw [he]
      constructor
      · intro h
        exact absurd h (by simp [okB])
      · rintro ⟨h1, -⟩
        simp [keysOkEntries] at h1
        exact absurd h1.1.1 hk

theorem wrapItems_ok_iff (xs : List Val) (f : String) (d : Nat) :
    okB (wrapItems xs f d) = true ↔
      (keysOkItems xs = true ∧
        ∀ v ∈ xs, d + 1 + need v ≤ MAX_NESTING_DEPTH) := by
  cases xs with
  | nil => simp [wrapItems_nil, okB, keysOkItems]
  | cons v rest =>
    rw [wrapItems_cons]
    have hv := wrap_ok_iff v f (d + 1)
    have hrest := wrapItems_ok_iff rest f d
    cases hw : wrap v f (d + 1) with
    | error e =>
      have hnv : ¬ (d + 1 + need v ≤ MAX_NESTING_DEPTH ∧ keysOk v = true) := by
        rw [← hv, hw]
        simp [okB]
      constructor
      · intro h
        exact absurd h (by simp [okB])
      · rintro ⟨h1, h2⟩
        simp [keysOkItems] at h1
        exact absurd ⟨h2 v (List.mem_cons_self _ _), h1.1⟩ hnv
    | ok w =>
      have hvok : d + 1 + need v ≤ MAX_NESTING_DEPTH ∧ keysOk v = true := by
        rw [← hv, hw]
        simp [okB]
      cases hwr : wrapItems rest f d with
      | error e =>
        have hnr : ¬ (keysOkItems rest = true ∧
            ∀ w ∈ rest, d + 1 + need w ≤ MAX_NESTING_DEPTH) := by
          rw [← hrest, hwr]
          simp [okB]
        constructor
        · intro h
          exact absurd h (by simp [okB])
        · rintro ⟨h1, h2⟩
          simp [keysOkItems] at h1
          exact absurd ⟨h1.2, fun w hm => h2 w (List.mem_cons_of_mem _ hm)⟩ hnr
      | ok ws =>
        have hr : keysOkItems rest = true ∧
            ∀ w ∈ rest, d + 1 + need w ≤ MAX_NESTING_DEPTH := by
          rw [← hrest, hwr]
          simp [okB]
        simp only [okB]
        constructor
        · intro _
          refine ⟨by simp [keysOkItems, hvok.2, hr.1], ?_⟩
          intro w hm
          rcases List.mem_cons.mp hm with h1 | h1
          · cases h1; exact hvok.1
          · exact hr.2 w h1
        · intro _
          trivial

end

/-! ## Container mutation operations

Each mutating method of `ProxiedMap` / `ProxiedList` is embedded as a
function from the container's `_field_path`, `_depth` and `_data` to a
result holding the new data, the list of field paths passed to
`self._parent._mark_field_dirty(...)` during the call (in order), the
Python return value if any, and the exception if one was raised. A raised
exception leaves `data` at the value it had when the exception escaped
(all these methods raise before mutating). -/

/-- Python dict lookup on an insertion-ordered association list. -/
def lookupEntry : List (String × Val) → String → Option Val
  | [], _ => none
  | (k1, v1) :: rest, k => if k1 = k then some v1 else lookupEntry rest k

/-- Python dict item assignment: overwrite in place or append. -/
def setEntry : List (String × Val) → String → Val → List (String × Val)
  | [], k, v => [(k, v)]
  | (k1, v1) :: rest, k, v =>
    if k1 = k then (k1, v) :: rest else (k1, v1) :: setEntry rest k v

/-- Python dict item deletion (key assumed present at most once). -/
def removeEntry : List (String × Val) → String → List (String × Val)
  | [], _ => []
  | (k1, v1) :: rest, k =>
    if k1 = k then rest else (k1, v1) :: removeEntry rest k

mutual

/-- Deeply strip proxy wrappers everywhere (used to model Python `==`,
which compares proxies and plain containers by contents via
`ProxiedMap.__eq__` / `ProxiedList.__eq__`). -/

def deepPlain : Val → Val
  | .prim n => .prim n
  | .vstr s => .vstr s
  | .dict es => .dict (deepPlainEntries es)
  | .arr xs => .arr (deepPlainItems xs)
  | .pmap _ _ es => .dict (deepPlainEntries es)
  | .parr _ _ xs => .arr (deepPlainItems xs)

def deepPlainEntries : List (String × Val) → List (String × Val)
  | [] => []
  | (k, v) :: rest => (k, deepPlain v) :: deepPlainEntries rest

def deepPlainItems : List Val → List Val
  | [] => []
  | v :: rest => deepPlain v :: deepPlainItems rest

end

mutual

/-- Structural boolean equality on values. -/

def valBEq : Val → Val → Bool
  | .prim a, .prim b => a == b
  | .vstr a, .vstr b => a == b
  | .dict a, .dict b => entriesBEq a b
  | .arr a, .arr b => itemsBEq a b
  | .pmap f1 d1 a, .pmap f2 d2 b => f1 == f2 && d1 == d2 && entriesBEq a b
  | .parr f1 d1 a, .parr f2 d2 b => f1 == f2 && d1 == d2 && itemsBEq a b
  | _, _ => false

def entriesBEq : List (String × Val) → List (String × Val) → Bool
  | [], [] => true
  | (k1, v1) :: r1, (k2, v2) :: r2 => k1 == k2 && valBEq v1 v2 && entriesBEq r1 r2
  | _, _ => false

def itemsBEq : List Val → List Val → Bool
  | [], [] => true
  | v1 :: r1, v2 :: r2 => valBEq v1 v2 && itemsBEq r1 r2
  | _, _ => false

end

/-- Python `==` between values that may mix proxies and plain containers:
compare contents with wrappers stripped. (Dict comparison is modelled as
order-sensitive on the association lists; no claim depends on key order.) -/
def pyEq (a b : Val) : Bool := valBEq (deepPlain a) (deepPlain b)

/-- Normalise a (possibly negative) Python sequence index; `none` means
`IndexError`. -/
def normIdx (i : Int) (n : Nat) : Option Nat :=
  if i < 0 then
    if 0 ≤ i + (n : Int) then some (i + (n : Int)).toNat else none
  else
    if i < (n : Int) then some i.toNat else none

/-- Clamp an index as Python `list.insert` does (never raises). -/
def clampIdx (i : Int) (n : Nat) : Nat :=
  if i < 0 then
    if 0 ≤ i + (n : Int) then (i + (n : Int)).toNat else 0
  else
    if i ≤ (n : Int) then i.toNat else n

def insertAt : List Val → Nat → Val → List Val
  | xs, 0, v => v :: xs
  | [], _ + 1, v => [v]
  | x :: xs, n + 1, v => x :: insertAt xs n v

/-- Remove the element at a given in-range position, returning it and the
remaining list. -/
def listPopCore : List Val → Nat → Option (Val × List Val)
  | [], _ => none
  | x :: xs, 0 => some (x, xs)
  | x :: xs, n + 1 =>
    match listPopCore xs n with
    | none => none
    | some (v, ys) => some (v, x :: ys)

/-- Remove the first element equal (in Python's sense) to `v`; `none` means
`ValueError`. -/
def removeFirst : List Val → Val → Option (List Val)
  | [], _ => none
  | x :: xs, v =>
    if pyEq x v then some xs
    else
      match removeFirst xs v with
      | none => none
      | some ys => some (x :: ys)

def insVal (le : Val → Val → Bool) (x : Val) : List Val → List Val
  | [] => [x]
  | y :: ys => if le x y then x :: y :: ys else y :: insVal le x ys

/-- Insertion sort (stable, like Python's sort; the order itself is not
relevant to any claim). -/
def isortVal (le : Val → Val → Bool) : List Val → List Val
  | [] => []
  | x :: xs => insVal le x (isortVal le xs)

def primLe : Val → Val → Bool
  | .prim a, .prim b => a ≤ b
  | _, _ => false

def strLe : Val → Val → Bool
  | .vstr a, .vstr b => decide (a ≤ b)
  | _, _ => false

def allPrim (xs : List Val) : Bool :=
  xs.all fun v => match v with | .prim _ => true | _ => false

def allStr (xs : List Val) : Bool :=
  xs.all fun v => match v with | .vstr _ => true | _ => false

/-- Result of a `ProxiedMap` method call. -/
structure MapResult where
  data : List (String × Val)
  reports : List String
  ret : Option Val
  retKey : Option String
  err : Option PyErr

/-- Result of a `ProxiedList` method call. -/
structure ListResult where
  data : List Val
  reports : List String
  ret : Option Val
  err : Option PyErr

/-- `ProxiedMap.__setitem__`: validate the key at the map's depth, wrap the
value one level deeper, store it, then mark the top-level field dirty. -/
def mapSetItem (f : String) (d : Nat) (es : List (String × Val))
    (k : String) (v : Val) : MapResult :=
  match validate_field_name k d with
  | .error e => ⟨es, [], none, none, some (.constraint e)⟩
  | .ok _ =>
    match wrap v f (d + 1) with
    | .error e => ⟨es, [], none, none, some (.constraint e)⟩
    | .ok w => ⟨setEntry es k w, [f], none, none, none⟩

/-- `ProxiedMap.__delitem__`: delete (KeyError if absent), then mark
dirty. -/
def mapDelItem (f : String) (es : List (String × Val)) (k : String) :
    MapResult :=
  match lookupEntry es k with
  | none => ⟨es, [], none, none, some .keyErr⟩
  | some _ => ⟨removeEntry es k, [f], none, none, none⟩

/-- `ProxiedMap.clear`: empty the dict, then mark dirty. -/
def mapClear (f : String) (es : List (String × Val)) : MapResult :=
  ⟨[], [f], none, none, none⟩

/-- `ProxiedMap.pop`: `self._data.pop(key, *args)` — with a default the
call succeeds (and still marks dirty) even when the key is absent; without
a default an absent key raises KeyError before the dirty mark. The result
is unwrapped before being returned. -/
def mapPop (f : String) (es : List (String × Val)) (k : String)
    (dflt : Option Val) : MapResult :=
  match lookupEntry es k with
  | some v => ⟨removeEntry es k, [f], some (unwrap v), none, none⟩
  | none =>
    match dflt with
    | some dv => ⟨es, [f], some (unwrap dv), none, none⟩
    | none => ⟨es, [], none, none, some .keyErr⟩

/-- `ProxiedMap.popitem`: LIFO removal; KeyError on an empty dict before
the dirty mark. -/
def mapPopitem (f : String) (es : List (String × Val)) : MapResult :=
  match es.getLast? with
  | none => ⟨es, [], none, none, some .keyErr⟩
  | some (k, v) => ⟨es.dropLast, [f], some (unwrap v), some k, none⟩

/-- `ProxiedMap.setdefault`: return the existing value without marking
dirty, or validate/wrap/store the default and mark dirty. -/
def mapSetdefault (f : String) (d : Nat) (es : List (String × Val))
    (k : String) (dv : Val) : MapResult :=
  match lookupEntry es k with
  | some v => ⟨es, [], some v, none, none⟩
  | none =>
    match validate_field_name k d with
    | .error e => ⟨es, [], none, none, some (.constraint e)⟩
    | .ok _ =>
      match wrap dv f (d + 1) with
      | .error e => ⟨es, [], none, none, some (.constraint e)⟩
      | .ok w => ⟨setEntry es k w, [f], some w, none, none⟩

/-- `ProxiedMap.update`: sequential `self[key] = value`; an invalid pair
stops the loop, keeping the mutations and dirty marks already made. -/
def mapUpdate (f : String) (d : Nat) (es : List (String × Val)) :
    List (String × Val) → MapResult
  | [] => ⟨es, [], none, none, none⟩
  | (k, v) :: rest =>
    let r := mapSetItem f d es k v
    match r.err with
    | some e => ⟨r.data, r.reports, none, none, some e⟩
    | none =>
      let r2 := mapUpdate f d r.data rest
      ⟨r2.data, r.reports ++ r2.reports, none, none, r2.err⟩

/-- The mutating `ProxiedMap` interface. -/
inductive MapOp where
| setitem : String → Val → MapOp
| delitem : String → MapOp
| clear : MapOp
| pop : String → Option Val → MapOp
| popitem : MapOp
| setdefault : String → Val → MapOp
| update : List (String × Val) → MapOp

def runMapOp : MapOp → String → Nat → List (String × Val) → MapResult
  | .setitem k v, f, d, es => mapSetItem f d es k v
  | .delitem k, f, _, es => mapDelItem f es k
  | .clear, f, _, es => mapClear f es
  | .pop k dflt, f, _, es => mapPop f es k dflt
  | .popitem, f, _, es => mapPopitem f es
  | .setdefault k dv, f, d, es => mapSetdefault f d es k dv
  | .update pairs, f, d, es => mapUpdate f d es pairs

/-- `ProxiedList.__setitem__` (single index): wrap first, then assign
(IndexError if out of range), then mark dirty. -/
def listSetItem (f : String) (d : Nat) (xs : List Val) (i : Int)
    (v : Val) : ListResult :=
  match wrap v f (d + 1) with
  | .error e => ⟨xs, [], none, some (.constraint e)⟩
  | .ok w =>
    match normIdx i xs.length with
    | none => ⟨xs, [], none, some .indexErr⟩
    | some j => ⟨xs.set j w, [f], none, none⟩

/-- `ProxiedList.__delitem__`. -/
def listDelItem (f : String) (xs : List Val) (i : Int) : ListResult :=
  match normIdx i xs.length with
  | none => ⟨xs, [], none, some .indexErr⟩
  | some j => ⟨xs.eraseIdx j, [f], none, none⟩

/-- `ProxiedList.append`. -/
def listAppend (f : String) (d : Nat) (xs : List Val) (v : Val) :
    ListResult :=
  match wrap v f (d + 1) with
  | .error e => ⟨xs, [], none, some (.constraint e)⟩
  | .ok w => ⟨xs ++ [w], [f], none, none⟩

/-- `ProxiedList.extend`: all new items are wrapped before any is
appended. -/
def listExtend (f : String) (d : Nat) (xs : List Val) (vs : List Val) :
    ListResult :=
  match wrapItems vs f d with
  | .error e => ⟨xs, [], none, some (.constraint e)⟩
  | .ok ws => ⟨xs ++ ws, [f], none, none⟩

/-- `ProxiedList.insert` (index clamped, never raises IndexError). -/
def listInsert (f : String) (d : Nat) (xs : List Val) (i : Int)
    (v : Val) : ListResult :=
  match wrap v f (d + 1) with
  | .error e => ⟨xs, [], none, some (.constraint e)⟩
  | .ok w => ⟨insertAt xs (clampIdx i xs.length) w, [f], none, none⟩

/-- `ProxiedList.pop` (default index −1): IndexError before the dirty
mark; the removed element is unwrapped. -/
def listPop (f : String) (xs : List Val) (i : Int) : ListResult :=
  match normIdx i xs.length with
  | none => ⟨xs, [], none, some .indexErr⟩
  | some j =>
    match listPopCore xs j with
    | none => ⟨xs, [], none, some .indexErr⟩
    | some (v, ys) => ⟨ys, [f], some (unwrap v), none⟩

/-- `ProxiedList.remove`: ValueError before the dirty mark when no element
compares equal. -/
def listRemove (f : String) (xs : List Val) (v : Val) : ListResult :=
  match removeFirst xs v with
  | none => ⟨xs, [], none, some .valueErr⟩
  | some ys => ⟨ys, [f], none, none⟩

/-- `ProxiedList.clear`. -/
def listClear (f : String) : ListResult := ⟨[], [f], none, none⟩

/-- `ProxiedList.reverse`. -/
def listReverse (f : String) (xs : List Val) : ListResult :=
  ⟨xs.reverse, [f], none, none⟩

/-- `ProxiedList.sort` with no arguments: comparable contents are sorted
and the field marked dirty; incomparable mixed contents raise TypeError
from `self._data.sort(...)` before the dirty mark, leaving the contents
unchanged. -/
def listSortOp (f : String) (xs : List Val) : ListResult :=
  if xs.length ≤ 1 then ⟨xs, [f], none, none⟩
  else if allPrim xs then ⟨isortVal primLe xs, [f], none, none⟩
  else if allStr xs then ⟨isortVal strLe xs, [f], none, none⟩
  else ⟨xs, [], none, some .typeErr⟩

/-- The mutating `ProxiedList` interface. -/
inductive ListOp where
| setitem : Int → Val → ListOp
| delitem : Int → ListOp
| append : Val → ListOp
| extend : List Val → ListOp
| insert : Int → Val → ListOp
| pop : Int → ListOp
| remove : Val → ListOp
| clear : ListOp
| reverse : ListOp
| sortOp : ListOp

def runListOp : ListOp → String → Nat → List Val → ListResult
  | .setitem i v, f, d, xs => listSetItem f d xs i v
  | .delitem i, f, _, xs => listDelItem f xs i
  | .append v, f, d, xs => listAppend f d xs v
  | .extend vs, f, d, xs => listExtend f d xs vs
  | .insert i v, f, d, xs => listInsert f d xs i v
  | .pop i, f, _, xs => listPop f xs i
  | .remove v, f, _, xs => listRemove f xs v
  | .clear, f, _, _ => listClear f
  | .reverse, f, _, xs => listReverse f xs
  | .sortOp, f, _, xs => listSortOp f xs

/-! ## Every dirty report a container makes names its own field path -/

theorem mapSetItem_reports (f : String) (d : Nat) (es : List (String × Val))
    (k : String) (v : Val) :
    ∀ p ∈ (mapSetItem f d es k v).reports, p = f := by
  unfold mapSetItem
  split
  · simp
  · split <;> simp

theorem mapDelItem_reports (f : String) (es : List (String × Val))
    (k : String) : ∀ p ∈ (mapDelItem f es k).reports, p = f := by
  unfold mapDelItem
  split <;> simp

theorem mapClear_reports (f : String) (es : List (String × Val)) :
    ∀ p ∈ (mapClear f es).reports, p = f := by
  simp [mapClear]

theorem mapPop_reports (f : String) (es : List (String × Val)) (k : String)
    (dflt : Option Val) : ∀ p ∈ (mapPop f es k dflt).reports, p = f := by
  unfold mapPop
  split
  · simp
  · split <;> simp

theorem mapPopitem_reports (f : String) (es : List (String × Val)) :
    ∀ p ∈ (mapPopitem f es).reports, p = f := by
  unfold mapPopitem
  split <;> simp

theorem mapSetdefault_reports (f : String) (d : Nat)
    (es : List (String × Val)) (k : String) (dv : Val) :
    ∀ p ∈ (mapSetdefault f d es k dv).reports, p = f := by
  unfold mapSetdefault
  split
  · simp
  · split
    · simp
    · split <;> simp

theorem mapUpdate_reports (f : String) (d : Nat)
    (pairs : List (String × Val)) :
    ∀ es : List (String × Val), ∀ p ∈ (mapUpdate f d es pairs).reports, p = f := by
  induction pairs with
  | nil => intro es; simp [mapUpdate]
  | cons kv rest ih =>
    obtain ⟨k, v⟩ := kv
    intro es
    simp only [mapUpdate]
    split
    · exact mapSetItem_reports f d es k v
    · intro p hp
      simp only [List.mem_append] at hp
      rcases hp with hp | hp
      · exact mapSetItem_reports f d es k v p hp
      · exact ih _ p hp

theorem runMapOp_reports (op : MapOp) (f : String) (d : Nat)
    (es : List (String × Val)) :
    ∀ p ∈ (runMapOp op f d es).reports, p = f := by
  cases op with
  | setitem k v => exact mapSetItem_reports f d es k v
  | delitem k => exact mapDelItem_reports f es k
  | clear => exact mapClear_reports f es
  | pop k dflt => exact mapPop_reports f es k dflt
  | popitem => exact mapPopitem_reports f es
  | setdefault k dv => exact mapSetdefault_reports f d es k dv
  | update pairs => exact mapUpdate_reports f d pairs es

theorem listSetItem_reports (f : String) (d : Nat) (xs : List Val)
    (i : Int) (v : Val) : ∀ p ∈ (listSetItem f d xs i v).reports, p = f := by
  unfold listSetItem
  split
  · simp
  · split <;> simp

theorem listDelItem_reports (f : String) (xs : List Val) (i : Int) :
    ∀ p ∈ (listDelItem f xs i).reports, p = f := by
  unfold listDelItem
  split <;> simp

theorem listAppend_reports (f : String) (d : Nat) (xs : List Val)
    (v : Val) : ∀ p ∈ (listAppend f d xs v).reports, p = f := by
  unfold listAppend
  split <;> simp

theorem listExtend_reports (f : String) (d : Nat) (xs : List Val)
    (vs : List Val) : ∀ p ∈ (listExtend f d xs vs).reports, p = f := by
  unfold listExtend
  split <;> simp

theorem listInsert_reports (f : String) (d : Nat) (xs : List Val)
    (i : Int) (v : Val) : ∀ p ∈ (listInsert f d xs i v).reports, p = f := by
  unfold listInsert
  split <;> simp

theorem listPop_reports (f : String) (xs : List Val) (i : Int) :
    ∀ p ∈ (listPop f xs i).reports, p = f := by
  unfold listPop
  split
  · simp
  · split <;> simp

theorem listRemove_reports (f : String) (xs : List Val) (v : Val) :
    ∀ p ∈ (listRemove f xs v).reports, p = f := by
  unfold listRemove
  split <;> simp

theorem listClear_reports (f : String) :
    ∀ p ∈ (listClear f).reports, p = f := by
  simp [listClear]

theorem listReverse_reports (f : String) (xs : List Val) :
    ∀ p ∈ (listReverse f xs).reports, p = f := by
  simp [listReverse]

theorem listSortOp_reports (f : String) (xs : List Val) :
    ∀ p ∈ (listSortOp f xs).reports, p = f := by
  unfold listSortOp
  split_ifs <;> simp

theorem runListOp_reports (op : ListOp) (f : String) (d : Nat)
    (xs : List Val) : ∀ p ∈ (runListOp op f d xs).reports, p = f := by
  cases op with
  | setitem i v => exact listSetItem_reports f d xs i v
  | delitem i => exact listDelItem_reports f xs i
  | append v => exact listAppend_reports f d xs v
  | extend vs => exact listExtend_reports f d xs vs
  | insert i v => exact listInsert_reports f d xs i v
  | pop i => exact listPop_reports f xs i
  | remove v => exact listRemove_reports f xs v
  | clear => exact listClear_reports f
  | reverse => exact listReverse_reports f xs
  | sortOp => exact listSortOp_reports f xs

theorem mapSetItem_ok_reports (f : String) (d : Nat)
    (es : List (String × Val)) (k : String) (v : Val)
    (h : (mapSetItem f d es k v).err = none) :
    (mapSetItem f d es k v).reports = [f] := by
  revert h
  unfold mapSetItem
  split
  · simp
  · split <;> simp

theorem listAppend_ok_reports (f : String) (d : Nat) (xs : List Val)
    (v : Val) (h : (listAppend f d xs v).err = none) :
    (listAppend f d xs v).reports = [f] := by
  revert h
  unfold listAppend
  split <;> simp

/-! ## BaseFireObject: lifecycle state and dirty/deleted/atomic tracking -/

/-- The lifecycle states from state.py. -/
inductive State where
| DETACHED
| ATTACHED
| LOADED
| DELETED
deriving DecidableEq

/-- Pending atomic operations stored by `array_union` / `array_remove` /
`increment` (base_fire_object.py wraps them in the native sentinels
`firestore.ArrayUnion` / `ArrayRemove` / `Increment`). -/
inductive AtomicOp where
| arrayUnion : List Val → AtomicOp
| arrayRemove : List Val → AtomicOp
| increment : Int → AtomicOp

/-- The mutable state of a `BaseFireObject`: `_state`, `_data`,
`_dirty_fields`, `_deleted_fields`, `_atomic_ops`. The Python sets are
embedded as duplicate-free lists (only membership matters), the Python
dicts as insertion-ordered association lists. -/
structure FireObj where
  state : State
  data : List (String × Val)
  dirty : List String
  deleted : List String
  atomic : List (String × AtomicOp)

/-- `BaseFireObject.__init__`: tracking state starts empty. -/
def mkFireObj (s : State) (d : List (String × Val)) : FireObj :=
  ⟨s, d, [], [], []⟩

/-- Python `set.add`. -/
def addName (l : List String) (n : String) : List String :=
  if n ∈ l then l else l ++ [n]

/-- Python `set.discard`. -/
def delName (l : List String) (n : String) : List String :=
  l.filter fun m => m != n

/-- Python dict assignment for the atomic-op map. -/
def setAtomic : List (String × AtomicOp) → String → AtomicOp →
    List (String × AtomicOp)
  | [], k, a => [(k, a)]
  | (k1, a1) :: rest, k, a =>
    if k1 = k then (k1, a) :: rest else (k1, a1) :: setAtomic rest k a

def lookupAtomic : List (String × AtomicOp) → String → Option AtomicOp
  | [], _ => none
  | (k1, a1) :: rest, k => if k1 = k then some a1 else lookupAtomic rest k

/-- The public operations of `BaseFireObject` relevant to the tracking
state: field assignment (`__setattr__` on a data field), field deletion
(`__delattr__`), the three atomic-op registrations, `_mark_clean`, and
`_transition_to_loaded`. -/
inductive FOp where
| setF : String → Val → FOp
| delF : String → FOp
| inc : String → Int → FOp
| aunion : String → List Val → FOp
| aremove : String → List Val → FOp
| markClean : FOp
| toLoaded : List (String × Val) → FOp

/-- One public operation on a `BaseFireObject`, with the exception it
raises, faithful to base_fire_object.py:

* `__setattr__` (data field): AttributeError on a DELETED object; else
  store in `_data`, add to `_dirty_fields`, discard from
  `_deleted_fields` — `_atomic_ops` is not touched;
* `__delattr__`: AttributeError on a DELETED object or a missing field;
  else remove from `_data`, add to `_deleted_fields`, discard from
  `_dirty_fields`;
* `increment` / `array_union` / `array_remove`: RuntimeError on a DELETED
  object; else store/overwrite the op in `_atomic_ops` (neither
  `_dirty_fields` nor `_deleted_fields` is touched);
* `_mark_clean`: clear all three;
* `_transition_to_loaded(data)`: replace `_data`, set state LOADED, clear
  all three. -/
def stepE (o : FireObj) : FOp → Except PyErr FireObj
  | .setF n v =>
    if o.state = State.DELETED then .error .attributeErr
    else
      .ok { o with
        data := setEntry o.data n v
        dirty := addName o.dirty n
        deleted := delName o.deleted n }
  | .delF n =>
    if o.state = State.DELETED then .error .attributeErr
    else if (lookupEntry o.data n).isSome = false then .error .attributeErr
    else
      .ok { o with
        data := removeEntry o.data n
        deleted := addName o.deleted n
        dirty := delName o.dirty n }
  | .inc n x =>
    if o.state = State.DELETED then .error .runtimeErr
    else .ok { o with atomic := setAtomic o.atomic n (.increment x) }
  | .aunion n vs =>
    if o.state = State.DELETED then .error .runtimeErr
    else .ok { o with atomic := setAtomic o.atomic n (.arrayUnion vs) }
  | .aremove n vs =>
    if o.state = State.DELETED then .error .runtimeErr
    else .ok { o with atomic := setAtomic o.atomic n (.arrayRemove vs) }
  | .markClean => .ok { o with dirty := [], deleted := [], atomic := [] }
  | .toLoaded d =>
    .ok { o with
      state := State.LOADED, data := d, dirty := [], deleted := [], atomic := [] }

/-- Run one operation; a raised exception leaves the object unchanged
(nothing is mutated before any of the raises above). -/
def applyFOp (o : FireObj) (op : FOp) : FireObj :=
  match stepE o op with
  | .ok o2 => o2
  | .error _ => o

def applyFOps (o : FireObj) (ops : List FOp) : FireObj :=
  ops.foldl applyFOp o

/-- `BaseFireObject.is_dirty`: DETACHED is always dirty; otherwise dirty
iff any of the three tracking collections is non-empty. -/
def is_dirty (o : FireObj) : Bool :=
  if o.state = State.DETACHED then true
  else !o.dirty.isEmpty || !o.deleted.isEmpty || !o.atomic.isEmpty

/-- `BaseFireObject.to_dict`: RuntimeError while ATTACHED, otherwise a
shallow copy of `_data` (`dict(self._data)`) — the stored values
themselves, not unwrapped. -/
def to_dict_obj (o : FireObj) : Except PyErr (List (String × Val)) :=
  if o.state = State.ATTACHED then .error .runtimeErr else .ok o.data

/-- The successful-save state effect shared by the sync and async `save`
(async_fire_object.py lines 276–301): RuntimeError on DELETED; DETACHED
saves, becomes LOADED and is marked clean; a clean LOADED save is a no-op;
a dirty LOADED save is marked clean; ATTACHED saves, becomes LOADED and is
marked clean. -/
def saveEffect (o : FireObj) : Except PyErr FireObj :=
  if o.state = State.DELETED then .error .runtimeErr
  else if o.state = State.DETACHED then
    .ok { o with state := State.LOADED, dirty := [], deleted := [], atomic := [] }
  else if o.state = State.LOADED then
    if is_dirty o = false then .ok o
    else .ok { o with dirty := [], deleted := [], atomic := [] }
  else
    .ok { o with state := State.LOADED, dirty := [], deleted := [], atomic := [] }

/-! ## Synchronous FireObject lifecycle checks (fire_object.py) -/

/-- `FireObject.delete`: ValueError on DETACHED (before anything else),
RuntimeError on DELETED, otherwise a remote delete is issued (the returned
flag) and the state becomes DELETED. -/
def deleteStep (s : State) : Except PyErr (State × Bool) :=
  if s = State.DETACHED then .error .valueErr
  else if s = State.DELETED then .error .runtimeErr
  else .ok (State.DELETED, true)

/-- `FireObject.fetch(force)`: ValueError on DETACHED, RuntimeError on
DELETED, no-op without a remote call when LOADED and not forced, otherwise
a remote get (the returned flag) ending in LOADED. -/
def fetchStep (s : State) (force : Bool) : Except PyErr (State × Bool) :=
  if s = State.DETACHED then .error .valueErr
  else if s = State.DELETED then .error .runtimeErr
  else if s = State.LOADED && !force then .ok (State.LOADED, false)
  else .ok (State.LOADED, true)

/-! ## Definitions modelled from the spec (code absent from src) -/

/-- Modelled from the spec: `BaseFireObject._mark_field_dirty(field_path)`
is called by every container mutation but is not present in the
base_fire_object.py under src (only its callers in proxied_map.py and
proxied_list.py are). Per the spec, a container mutation "marks only the
top-level field name dirty on the root DocumentProxy": the path is added
to the dirty-field set and nothing else changes. -/
def mark_field_dirty (o : FireObj) (f : String) : FireObj :=
  { o with dirty := addName o.dirty f }

/-- Apply the dirty reports produced by a container operation, in order. -/
def applyReports (o : FireObj) (ps : List String) : FireObj :=
  ps.foldl mark_field_dirty o

/-- Modelled from the spec: `setField(name, value)` of §4.2 — the
validating/wrapping top-level field assignment that the spec describes
(the `__setattr__` present in src stores without validating or wrapping;
the spec-described variant is absent from src). It validates the name at
depth 0, wraps the value (so a rejected structure raises and leaves the
proxy unchanged), stores it, marks the name dirty, removes it from the
deleted set and replaces any pending atomic op. -/
def setField_spec (o : FireObj) (n : String) (v : Val) :
    Except PyErr FireObj :=
  match validate_field_name n 0 with
  | .error e => .error (.constraint e)
  | .ok _ =>
    match wrap v n 0 with
    | .error e => .error (.constraint e)
    | .ok w =>
      .ok { o with
        data := setEntry o.data n w
        dirty := addName o.dirty n
        deleted := delName o.deleted n
        atomic := o.atomic.filter fun ka => ka.1 != n }

/-! ## Helper lemmas on the tracking-set operations -/

theorem mem_addName {m n : String} {l : List String}
    (h : m ∈ addName l n) : m ∈ l ∨ m = n := by
  unfold addName at h
  split_ifs at h with h1
  · exact Or.inl h
  · rcases List.mem_append.mp h with h2 | h2
    · exact Or.inl h2
    · exact Or.inr (List.mem_singleton.mp h2)

theorem mem_addName_self (l : List String) (n : String) : n ∈ addName l n := by
  unfold addName
  split_ifs with h1
  · exact h1
  · simp

theorem mem_delName {m n : String} {l : List String} :
    m ∈ delName l n ↔ (m ∈ l ∧ m ≠ n) := by
  simp [delName, List.mem_filter, bne_iff_ne]

theorem not_mem_delName_self (l : List String) (n : String) :
    n ∉ delName l n := by
  intro h
  exact (mem_delName.mp h).2 rfl

theorem addName_isEmpty (l : List String) (n : String) :
    (addName l n).isEmpty = false := by
  unfold addName
  split_ifs with h1
  · cases l with
    | nil => cases h1
    | cons a r => rfl
  · cases l with
    | nil => rfl
    | cons a r => rfl

theorem addName_idem (l : List String) (n : String) :
    addName (addName l n) n = addName l n := by
  by_cases h1 : n ∈ l
  · simp [addName, h1]
  · simp [addName, h1]

theorem setAtomic_isEmpty (l : List (String × AtomicOp)) (k : String)
    (a : AtomicOp) : (setAtomic l k a).isEmpty = false := by
  cases l with
  | nil => rfl
  | cons ka r =>
    obtain ⟨k1, a1⟩ := ka
    unfold setAtomic
    split_ifs <;> rfl

theorem lookupAtomic_setAtomic (l : List (String × AtomicOp)) (k : String)
    (a : AtomicOp) : lookupAtomic (setAtomic l k a) k = some a := by
  induction l with
  | nil => simp [setAtomic, lookupAtomic]
  | cons ka r ih =>
    obtain ⟨k1, a1⟩ := ka
    unfold setAtomic
    split_ifs with h1
    · simp [lookupAtomic, h1]
    · simp [lookupAtomic, h1, ih]

theorem mark_field_dirty_idem (o : FireObj) (f : String) :
    mark_field_dirty (mark_field_dirty o f) f = mark_field_dirty o f := by
  simp [mark_field_dirty, addName_idem]

theorem applyReports_const {f : String} {ps : List String}
    (h : ∀ p ∈ ps, p = f) (o : FireObj) :
    applyReports o ps = o ∨ applyReports o ps = mark_field_dirty o f := by
  induction ps generalizing o with
  | nil => exact Or.inl rfl
  | cons p rest ih =>
    have hp : p = f := h p (List.mem_cons_self _ _)
    have h2 : ∀ q ∈ rest, q = f := fun q hq => h q (List.mem_cons_of_mem _ hq)
    have step : applyReports o (p :: rest) =
        applyReports (mark_field_dirty o f) rest := by
      rw [← hp]
      rfl
    rcases ih h2 (mark_field_dirty o f) with h3 | h3
    · exact Or.inr (step.trans h3)
    · exact Or.inr (step.trans (h3.trans (mark_field_dirty_idem o f)))

/-! ## Claim theorems -/

theorem utf8Len_mk_replicate (n : Nat) (c : Char) :
    utf8Len (String.mk (List.replicate n c)) = n * c.utf8Size := by
  simp [utf8Len, List.map_replicate, List.sum_replicate, smul_eq_mul]

/-- C9: field-name validation enforces a 1500-UTF-8-byte limit the spec
does not mention: `validate_field_name` raises for every name whose UTF-8
encoding exceeds `MAX_FIELD_NAME_BYTES = 1500` bytes, and accepts a name of
exactly 1500 bytes provided it is non-empty, has no leading or trailing
whitespace, and does not both start and end with double underscores. -/
theorem C9_field_name_byte_limit (name : String) (depth : Nat) :
    (MAX_FIELD_NAME_BYTES < utf8Len name →
      ∃ e, validate_field_name name depth = .error e) ∧
    (utf8Len name = MAX_FIELD_NAME_BYTES → name.isEmpty = false →
      pyStrip name = name → (startsDunder name && endsDunder name) = false →
      validate_field_name name depth = .ok ()) := by
  constructor
  · intro hlong
    cases hval : validate_field_name name depth with
    | ok u =>
      cases u
      have h := (validate_field_name_ok_iff name depth).mp hval
      omega
    | error e => exact ⟨e, rfl⟩
  · intro hlen h1 h2 h3
    exact (validate_field_name_ok_iff name depth).mpr ⟨h1, h3, h2, by omega⟩

/-- A 1501-byte field name. -/
def longName : String := String.mk (List.replicate 1501 'a')

/-- A 1500-byte field name satisfying all other validity conditions. -/
def maxName : String := String.mk (List.replicate 1500 'a')

theorem isEmpty_mk_cons (c : Char) (cs : List Char) :
    (String.mk (c :: cs)).isEmpty = false := by
  simp [String.isEmpty, String.endPos, String.utf8ByteSize,
    String.utf8ByteSize.go, String.Pos.ext_iff]
  have := Char.utf8Size_pos c
  omega

theorem pyStrip_replicate (n : Nat) (c : Char) (hc : isPyWs c = false) :
    pyStrip (String.mk (List.replicate n c)) = String.mk (List.replicate n c) := by
  unfold pyStrip
  cases n with
  | zero => rfl
  | succ m =>
    have h1 : List.dropWhile isPyWs (List.replicate (m + 1) c) =
        List.replicate (m + 1) c := by
      rw [List.replicate_succ, List.dropWhile_cons, hc]
      simp
    rw [h1, List.reverse_replicate, h1, List.reverse_replicate]

theorem C9_witness :
    (MAX_FIELD_NAME_BYTES < utf8Len longName ∧
      ∃ e, validate_field_name longName 0 = .error e) ∧
    (utf8Len maxName = MAX_FIELD_NAME_BYTES ∧
      validate_field_name maxName 0 = .ok ()) := by
  have ha : Char.utf8Size 'a' = 1 := by decide
  have hlong : utf8Len longName = 1501 := by
    rw [longName, utf8Len_mk_replicate, ha]
  have hmax : utf8Len maxName = 1500 := by
    rw [maxName, utf8Len_mk_replicate, ha]
  have hrep : List.replicate 1500 'a' = 'a' :: List.replicate 1499 'a' := by
    rw [← List.replicate_succ]
  have hempty : maxName.isEmpty = false := by
    rw [maxName, hrep]
    exact isEmpty_mk_cons 'a' (List.replicate 1499 'a')
  have hstrip : pyStrip maxName = maxName := by
    rw [maxName]
    exact pyStrip_replicate 1500 'a' (by decide)
  have hstart : startsDunder maxName = false := by
    rw [maxName]
    unfold startsDunder
    show (List.take 2 (List.replicate 1500 'a') == ['_', '_']) = false
    rw [List.take_replicate]
    decide
  refine ⟨⟨by rw [hlong]; norm_num [MAX_FIELD_NAME_BYTES], ?_⟩,
    ⟨by rw [hmax]; rfl, ?_⟩⟩
  · exact (C9_field_name_byte_limit longName 0).1
      (by rw [hlong]; norm_num [MAX_FIELD_NAME_BYTES])
  · exact (C9_field_name_byte_limit maxName 0).2
      (by rw [hmax]; rfl) hempty hstrip (by rw [hstart]; rfl)

/-- C5 counterexample: the claim also asserts the round trip through
`to_dict()`, but `BaseFireObject.to_dict` returns a shallow copy of
`_data` (`dict(self._data)`), so a wrapped field surfaces as a
`ProxiedMap` instance: wrapping `{"x": 1}` under the field `settings` and
reading it back through `to_dict` yields a value that still contains a
proxy, contradicting "containing no ProxiedMap or ProxiedList
instances". -/
theorem C5_counterexample :
    wrap (Val.dict [("x", Val.prim 1)]) "settings" 0 =
      .ok (Val.pmap "settings" 0 [("x", Val.prim 1)]) ∧
    to_dict_obj
        ⟨State.LOADED, [("settings", Val.pmap "settings" 0 [("x", Val.prim 1)])],
          [], [], []⟩ =
      .ok [("settings", Val.pmap "settings" 0 [("x", Val.prim 1)])] ∧
    proxyFreeEntries
        [("settings", Val.pmap "settings" 0 [("x", Val.prim 1)])] = false := by
  exact ⟨rfl, rfl, rfl⟩

/-- C5 (amended): the round trip holds through
`toPlainValue`/`_unwrap_value` — for every plain structure that wraps
successfully, unwrapping the wrapped value returns a value structurally
equal to the original and free of proxy types — while `to_dict` returns
the stored values unchanged (a shallow copy), so wrapped fields surface as
live proxies there (still equal to the original modulo wrappers). -/
theorem C5_round_trip (v : Val) (f : String) (d : Nat) (w : Val)
    (hp : proxyFree v = true) (hw : wrap v f d = .ok w) :
    unwrap w = v ∧ proxyFree (unwrap w) = true ∧
    (∀ o : FireObj, o.state ≠ State.ATTACHED → to_dict_obj o = .ok o.data) := by
  have h1 := unwrap_wrap v f d w hp hw
  refine ⟨h1, by rw [h1]; exact hp, ?_⟩
  intro o ho
  unfold to_dict_obj
  split_ifs with h2
  · exact absurd h2 ho
  · rfl

theorem C5_witness :
    proxyFree (Val.dict [("a", Val.arr [Val.prim 1, Val.vstr "b"])]) = true ∧
    wrap (Val.dict [("a", Val.arr [Val.prim 1, Val.vstr "b"])]) "cfg" 0 =
      .ok (Val.pmap "cfg" 0
        [("a", Val.parr "cfg" 1 [Val.prim 1, Val.vstr "b"])]) ∧
    unwrap (Val.pmap "cfg" 0
        [("a", Val.parr "cfg" 1 [Val.prim 1, Val.vstr "b"])]) =
      Val.dict [("a", Val.arr [Val.prim 1, Val.vstr "b"])] := by
  refine ⟨rfl, rfl, ?_⟩
  exact (C5_round_trip (Val.dict [("a", Val.arr [Val.prim 1, Val.vstr "b"])])
    "cfg" 0 (Val.pmap "cfg" 0
      [("a", Val.parr "cfg" 1 [Val.prim 1, Val.vstr "b"])]) rfl rfl).1

/-- A chain of `n + 1` nested dicts (the innermost is empty). -/
def nestedMaps : Nat → Val
  | 0 => .dict []
  | n + 1 => .dict [("k", nestedMaps n)]

/-- C6: depth boundary. Wrapping succeeds exactly when the value's depth
requirement fits under `MAX_NESTING_DEPTH` and all keys validate; a chain
of 20 nested maps wraps successfully at the top level while a chain of 21
raises at wrap time; and a failed wrap leaves the assignment target
unchanged, both for a `ProxiedMap.__setitem__` (data and dirty reports
untouched) and for the spec-described top-level `setField` (the object is
unchanged because the exception is raised before any store). -/
theorem C6_depth_boundary :
    (∀ (v : Val) (f : String) (d : Nat),
        okB (wrap v f d) = true ↔
          (d + need v ≤ MAX_NESTING_DEPTH ∧ keysOk v = true)) ∧
    okB (wrap (nestedMaps 19) "deep" 0) = true ∧
    wrap (nestedMaps 20) "deep" 0 = .error .depthExceeded ∧
    (∀ (f k : String) (d : Nat) (es : List (String × Val)) (v : Val),
        (mapSetItem f d es k v).err.isSome = true →
        (mapSetItem f d es k v).data = es ∧
          (mapSetItem f d es k v).reports = []) ∧
    (∀ (o : FireObj) (n : String) (v : Val) (e : CErr),
        wrap v n 0 = .error e → validate_field_name n 0 = .ok () →
        setField_spec o n v = .error (.constraint e)) := by
  refine ⟨wrap_ok_iff, rfl, rfl, ?_, ?_⟩
  · intro f k d es v
    unfold mapSetItem
    split
    · intro _; exact ⟨rfl, rfl⟩
    · split
      · intro _; exact ⟨rfl, rfl⟩
      · intro h; exact absurd h (by simp)
  · intro o n v e hw hval
    unfold setField_spec
    rw [hval, hw]

theorem C6_witness :
    ((mapSetItem "f" 0 [("x", Val.prim 1)] "k" (nestedMaps 20)).err.isSome
        = true ∧
      (mapSetItem "f" 0 [("x", Val.prim 1)] "k" (nestedMaps 20)).data =
        [("x", Val.prim 1)] ∧
      (mapSetItem "f" 0 [("x", Val.prim 1)] "k" (nestedMaps 20)).reports
        = []) ∧
    (wrap (nestedMaps 20) "deep" 0 = .error CErr.depthExceeded ∧
      validate_field_name "deep" 0 = .ok () ∧
      setField_spec (mkFireObj State.LOADED []) "deep" (nestedMaps 20) =
        .error (.constraint CErr.depthExceeded)) := by
  refine ⟨⟨rfl, ?_, ?_⟩, rfl, rfl, ?_⟩
  · exact (C6_depth_boundary.2.2.2.1 "f" "k" 0 [("x", Val.prim 1)]
      (nestedMaps 20) rfl).1
  · exact (C6_depth_boundary.2.2.2.1 "f" "k" 0 [("x", Val.prim 1)]
      (nestedMaps 20) rfl).2
  · exact C6_depth_boundary.2.2.2.2 (mkFireObj State.LOADED []) "deep"
      (nestedMaps 20) CErr.depthExceeded rfl rfl

/-- C1: for a document field `f` wrapped from a plain structure, every
mutating operation on any `ProxiedMap` or `ProxiedList` reachable inside
the wrapped value — at any nesting depth — passes exactly the top-level
field name `f` to the parent's mark-field-dirty callback: every reported
path equals `f`; a successful `__setitem__`/`append` reports exactly
`[f]`; and applying the reports to the root's tracking state adds at most
`f` to the dirty-field set (no other field is marked dirty). -/
theorem C1_nested_mutation_marks_top_field (v : Val) (f : String) (d : Nat)
    (w : Val) (hp : proxyFree v = true) (hw : wrap v f d = .ok w) :
    (∀ (g : String) (d2 : Nat) (es : List (String × Val)),
        Occurs (.pmap g d2 es) w →
        (∀ op : MapOp, ∀ p ∈ (runMapOp op g d2 es).reports, p = f) ∧
        (∀ (k : String) (u : Val), (mapSetItem g d2 es k u).err = none →
            (mapSetItem g d2 es k u).reports = [f]) ∧
        (∀ (op : MapOp) (o : FireObj),
            applyReports o (runMapOp op g d2 es).reports = o ∨
            applyReports o (runMapOp op g d2 es).reports =
              mark_field_dirty o f)) ∧
    (∀ (g : String) (d2 : Nat) (xs : List Val),
        Occurs (.parr g d2 xs) w →
        (∀ op : ListOp, ∀ p ∈ (runListOp op g d2 xs).reports, p = f) ∧
        (∀ u : Val, (listAppend g d2 xs u).err = none →
            (listAppend g d2 xs u).reports = [f]) ∧
        (∀ (op : ListOp) (o : FireObj),
            applyReports o (runListOp op g d2 xs).reports = o ∨
            applyReports o (runListOp op g d2 xs).reports =
              mark_field_dirty o f)) := by
  constructor
  · intro g d2 es hocc
    have hg : g = f := occurs_pmap_path hp hw hocc
    subst hg
    refine ⟨fun op => runMapOp_reports op g d2 es, ?_, ?_⟩
    · intro k u herr
      exact mapSetItem_ok_reports g d2 es k u herr
    · intro op o
      exact applyReports_const (runMapOp_reports op g d2 es) o
  · intro g d2 xs hocc
    have hg : g = f := occurs_parr_path hp hw hocc
    subst hg
    refine ⟨fun op => runListOp_reports op g d2 xs, ?_, ?_⟩
    · intro u herr
      exact listAppend_ok_reports g d2 xs u herr
    · intro op o
      exact applyReports_const (runListOp_reports op g d2 xs) o

theorem C1_witness :
    proxyFree (Val.dict [("inner", Val.dict [("x", Val.prim 1)])]) = true ∧
    wrap (Val.dict [("inner", Val.dict [("x", Val.prim 1)])]) "settings" 0 =
      .ok (Val.pmap "settings" 0
        [("inner", Val.pmap "settings" 1 [("x", Val.prim 1)])]) ∧
    Occurs (Val.pmap "settings" 1 [("x", Val.prim 1)])
      (Val.pmap "settings" 0
        [("inner", Val.pmap "settings" 1 [("x", Val.prim 1)])]) ∧
    (∀ p ∈ (runMapOp (MapOp.setitem "theme" (Val.vstr "light")) "settings" 1
        [("x", Val.prim 1)]).reports, p = "settings") := by
  have hocc : Occurs (Val.pmap "settings" 1 [("x", Val.prim 1)])
      (Val.pmap "settings" 0
        [("inner", Val.pmap "settings" 1 [("x", Val.prim 1)])]) :=
    Occurs.inPmap (List.mem_singleton.mpr rfl) (Occurs.refl _)
  refine ⟨rfl, rfl, hocc, ?_⟩
  exact ((C1_nested_mutation_marks_top_field
      (Val.dict [("inner", Val.dict [("x", Val.prim 1)])]) "settings" 0
      (Val.pmap "settings" 0
        [("inner", Val.pmap "settings" 1 [("x", Val.prim 1)])]) rfl rfl).1
    "settings" 1 [("x", Val.prim 1)] hocc).1
    (MapOp.setitem "theme" (Val.vstr "light"))

/-- C10: `ProxiedMap.pop` on a missing key: with a default it returns the
(unwrapped) default, leaves the contents unchanged, and still reports the
mutation — the top-level field is marked dirty even though no data
changed; without a default it raises KeyError before the dirty mark, so
nothing is reported and the dirty set is untouched. A plain default is
returned as-is (unwrapping does not change a proxy-free value's top
constructor). -/
theorem C10_pop_missing_key (f : String) (es : List (String × Val))
    (k : String) (dv : Val) (o : FireObj)
    (h : lookupEntry es k = none) :
    mapPop f es k (some dv) = ⟨es, [f], some (unwrap dv), none, none⟩ ∧
    applyReports o (mapPop f es k (some dv)).reports =
      mark_field_dirty o f ∧
    f ∈ (applyReports o (mapPop f es k (some dv)).reports).dirty ∧
    (proxyFree dv = true → unwrap dv = dv) ∧
    mapPop f es k none = ⟨es, [], none, none, some .keyErr⟩ ∧
    applyReports o (mapPop f es k none).reports = o := by
  have h1 : mapPop f es k (some dv) = ⟨es, [f], some (unwrap dv), none, none⟩ := by
    unfold mapPop
    rw [h]
  have h2 : mapPop f es k none = ⟨es, [], none, none, some .keyErr⟩ := by
    unfold mapPop
    rw [h]
  refine ⟨h1, by rw [h1]; rfl, ?_, ?_, h2, by rw [h2]; rfl⟩
  · rw [h1]
    show f ∈ (mark_field_dirty o f).dirty
    exact mem_addName_self o.dirty f
  · intro hdv
    cases dv with
    | prim n => rfl
    | vstr s => rfl
    | dict es2 => rfl
    | arr xs => rfl
    | pmap g dd es2 => simp [proxyFree] at hdv
    | parr g dd xs => simp [proxyFree] at hdv

theorem C10_witness :
    lookupEntry [("x", Val.prim 1)] "missing" = none ∧
    mapPop "cfg" [("x", Val.prim 1)] "missing" (some (Val.prim 7)) =
      ⟨[("x", Val.prim 1)], ["cfg"], some (Val.prim 7), none, none⟩ ∧
    mapPop "cfg" [("x", Val.prim 1)] "missing" none =
      ⟨[("x", Val.prim 1)], [], none, none, some .keyErr⟩ := by
  refine ⟨rfl, ?_, ?_⟩
  · exact (C10_pop_missing_key "cfg" [("x", Val.prim 1)] "missing"
      (Val.prim 7) (mkFireObj State.LOADED []) rfl).1
  · exact (C10_pop_missing_key "cfg" [("x", Val.prim 1)] "missing"
      (Val.prim 7) (mkFireObj State.LOADED []) rfl).2.2.2.2.1

/-- The invariant of claim C3. -/
def disjointDD (o : FireObj) : Prop := ∀ n ∈ o.dirty, n ∉ o.deleted

theorem disjoint_applyFOp (o : FireObj) (op : FOp) (h : disjointDD o) :
    disjointDD (applyFOp o op) := by
  cases op with
  | setF n v =>
    by_cases h1 : o.state = State.DELETED
    · have he : applyFOp o (FOp.setF n v) = o := by
        simp [applyFOp, stepE, h1]
      rw [he]; exact h
    · have he : applyFOp o (FOp.setF n v) =
        { o with
            data := setEntry o.data n v
            dirty := addName o.dirty n
            deleted := delName o.deleted n } := by
        simp [applyFOp, stepE, h1]
      rw [he]
      intro m hm hmd
      rcases mem_addName hm with h2 | h2
      · exact h m h2 (mem_delName.mp hmd).1
      · exact (mem_delName.mp hmd).2 h2
  | delF n =>
    by_cases h1 : o.state = State.DELETED
    · have he : applyFOp o (FOp.delF n) = o := by
        simp [applyFOp, stepE, h1]
      rw [he]; exact h
    · by_cases h2 : (lookupEntry o.data n).isSome = false
      · have he : applyFOp o (FOp.delF n) = o := by
          simp [applyFOp, stepE, h1, h2]
        rw [he]; exact h
      · have he : applyFOp o (FOp.delF n) =
          { o with
              data := removeEntry o.data n
              deleted := addName o.deleted n
              dirty := delName o.dirty n } := by
          simp [applyFOp, stepE, h1, h2]
        rw [he]
        intro m hm hmd
        have h3 := mem_delName.mp hm
        rcases mem_addName hmd with h4 | h4
        · exact h m h3.1 h4
        · exact h3.2 h4
  | inc n x =>
    by_cases h1 : o.state = State.DELETED <;>
      simp [applyFOp, stepE, h1] <;> exact h
  | aunion n vs =>
    by_cases h1 : o.state = State.DELETED <;>
      simp [applyFOp, stepE, h1] <;> exact h
  | aremove n vs =>
    by_cases h1 : o.state = State.DELETED <;>
      simp [applyFOp, stepE, h1] <;> exact h
  | markClean =>
    intro m hm
    simp [applyFOp, stepE] at hm
  | toLoaded d0 =>
    intro m hm
    simp [applyFOp, stepE] at hm

theorem disjoint_applyFOps (o : FireObj) (h : disjointDD o)
    (ops : List FOp) : disjointDD (applyFOps o ops) := by
  induction ops generalizing o with
  | nil => exact h
  | cons op rest ih => exact ih (applyFOp o op) (disjoint_applyFOp o op h)

/-- C3: for every `BaseFireObject` and every sequence of public operations
(field assignment, field deletion, atomic-op registration, mark-clean,
transition-to-loaded) starting from a fresh object, no field name is ever
in both the dirty set and the deleted set; moreover a successful
assignment removes the name from the deleted set, and a successful
deletion removes it from the dirty set. -/
theorem C3_dirty_deleted_disjoint :
    (∀ (s : State) (d0 : List (String × Val)) (ops : List FOp),
        disjointDD (applyFOps (mkFireObj s d0) ops)) ∧
    (∀ (o : FireObj) (n : String) (v : Val) (o2 : FireObj),
        stepE o (FOp.setF n v) = .ok o2 → n ∉ o2.deleted) ∧
    (∀ (o : FireObj) (n : String) (o2 : FireObj),
        stepE o (FOp.delF n) = .ok o2 → n ∉ o2.dirty) := by
  refine ⟨?_, ?_, ?_⟩
  · intro s d0 ops
    refine disjoint_applyFOps (mkFireObj s d0) ?_ ops
    intro n hn
    exact absurd hn (List.not_mem_nil n)
  · intro o n v o2 h
    simp only [stepE] at h
    split_ifs at h with h1
    cases h
    exact not_mem_delName_self o.deleted n
  · intro o n o2 h
    simp only [stepE] at h
    split_ifs at h with h1 h2
    cases h
    exact not_mem_delName_self o.dirty n

theorem C3_witness :
    disjointDD (applyFOps (mkFireObj State.LOADED [])
      [FOp.setF "temp" (Val.vstr "x"), FOp.delF "temp",
        FOp.setF "temp" (Val.vstr "y")]) ∧
    stepE (mkFireObj State.LOADED [("temp", Val.vstr "x")])
        (FOp.delF "temp") =
      .ok ⟨State.LOADED, [], [], ["temp"], []⟩ ∧
    "temp" ∉ (⟨State.LOADED, [], [], ["temp"], []⟩ : FireObj).dirty := by
  refine ⟨C3_dirty_deleted_disjoint.1 State.LOADED [] _, rfl, ?_⟩
  exact C3_dirty_deleted_disjoint.2.2
    (mkFireObj State.LOADED [("temp", Val.vstr "x")]) "temp"
    ⟨State.LOADED, [], [], ["temp"], []⟩ rfl

/-- C4: `is_dirty` is true exactly when the object is DETACHED or one of
the dirty-field set, deleted-field set and pending-atomic-op map is
non-empty; it is true immediately after any successful field assignment,
field deletion or atomic-op registration, and false immediately after a
successful save (which clears all three). -/
theorem C4_is_dirty :
    (∀ o : FireObj, is_dirty o = true ↔
        (o.state = State.DETACHED ∨ o.dirty ≠ [] ∨ o.deleted ≠ [] ∨
          o.atomic ≠ [])) ∧
    (∀ (o : FireObj) (n : String) (v : Val) (o2 : FireObj),
        stepE o (FOp.setF n v) = .ok o2 → is_dirty o2 = true) ∧
    (∀ (o : FireObj) (n : String) (o2 : FireObj),
        stepE o (FOp.delF n) = .ok o2 → is_dirty o2 = true) ∧
    (∀ (o : FireObj) (n : String) (x : Int) (o2 : FireObj),
        stepE o (FOp.inc n x) = .ok o2 → is_dirty o2 = true) ∧
    (∀ (o : FireObj) (n : String) (vs : List Val) (o2 : FireObj),
        stepE o (FOp.aunion n vs) = .ok o2 → is_dirty o2 = true) ∧
    (∀ (o : FireObj) (n : String) (vs : List Val) (o2 : FireObj),
        stepE o (FOp.aremove n vs) = .ok o2 → is_dirty o2 = true) ∧
    (∀ (o o2 : FireObj), saveEffect o = .ok o2 → is_dirty o2 = false) := by
  refine ⟨?_, ?_, ?_, ?_, ?_, ?_, ?_⟩
  · intro o
    unfold is_dirty
    split_ifs with h1
    · simp [h1]
    · simp [h1, List.isEmpty_iff, or_assoc]
  · intro o n v o2 h
    simp only [stepE] at h
    split_ifs at h with h1
    cases h
    unfold is_dirty
    split_ifs with h2
    · rfl
    · simp [addName_isEmpty]
  · intro o n o2 h
    simp only [stepE] at h
    split_ifs at h with h1 h2
    cases h
    unfold is_dirty
    split_ifs with h3
    · rfl
    · simp [addName_isEmpty]
  · intro o n x o2 h
    simp only [stepE] at h
    split_ifs at h with h1
    cases h
    unfold is_dirty
    split_ifs with h2
    · rfl
    · simp [setAtomic_isEmpty]
  · intro o n vs o2 h
    simp only [stepE] at h
    split_ifs at h with h1
    cases h
    unfold is_dirty
    split_ifs with h2
    · rfl
    · simp [setAtomic_isEmpty]
  · intro o n vs o2 h
    simp only [stepE] at h
    split_ifs at h with h1
    cases h
    unfold is_dirty
    split_ifs with h2
    · rfl
    · simp [setAtomic_isEmpty]
  · intro o o2 h
    unfold saveEffect at h
    split_ifs at h with h1 h2 h3 h4
    · cases h
      simp [is_dirty]
    · cases h
      exact h4
    · cases h
      simp [is_dirty, h3]
    · cases h
      simp [is_dirty]

theorem C4_witness :
    stepE (mkFireObj State.LOADED []) (FOp.setF "year" (Val.prim 1816)) =
      .ok ⟨State.LOADED, [("year", Val.prim 1816)], ["year"], [], []⟩ ∧
    is_dirty ⟨State.LOADED, [("year", Val.prim 1816)], ["year"], [], []⟩
      = true ∧
    saveEffect ⟨State.LOADED, [("year", Val.prim 1816)], ["year"], [], []⟩ =
      .ok ⟨State.LOADED, [("year", Val.prim 1816)], [], [], []⟩ ∧
    is_dirty ⟨State.LOADED, [("year", Val.prim 1816)], [], [], []⟩
      = false := by
  refine ⟨rfl, ?_, rfl, ?_⟩
  · exact C4_is_dirty.2.1 (mkFireObj State.LOADED []) "year" (Val.prim 1816)
      ⟨State.LOADED, [("year", Val.prim 1816)], ["year"], [], []⟩ rfl
  · exact C4_is_dirty.2.2.2.2.2.2
      ⟨State.LOADED, [("year", Val.prim 1816)], ["year"], [], []⟩
      ⟨State.LOADED, [("year", Val.prim 1816)], [], [], []⟩ rfl

/-- C2 counterexample: the claim says a direct assignment after
`increment("score", -5)` discards the pending atomic op, but
`BaseFireObject.__setattr__` never touches `_atomic_ops`: after
`increment` then assignment of 100, the pending-atomic-op map still holds
the Increment for "score". -/
theorem C2_counterexample :
    lookupAtomic (applyFOp (applyFOp (mkFireObj State.LOADED [])
        (FOp.inc "score" (-5))) (FOp.setF "score" (Val.prim 100))).atomic
      "score" = some (AtomicOp.increment (-5)) := rfl

/-- C2 (amended): the pending atomic op is NOT discarded by a later direct
assignment to the same field: on any non-DELETED object, after
`increment(n, x)` followed by a direct assignment to `n`, the
pending-atomic-op map still holds `Increment x` for `n`, while `n` is
also in the dirty-field set (and not in the deleted set) — the two
records coexist until the next mark-clean. -/
theorem C2_direct_write_keeps_atomic (o : FireObj) (n : String) (x : Int)
    (v : Val) (h : o.state ≠ State.DELETED) :
    lookupAtomic
        (applyFOp (applyFOp o (FOp.inc n x)) (FOp.setF n v)).atomic n =
      some (AtomicOp.increment x) ∧
    n ∈ (applyFOp (applyFOp o (FOp.inc n x)) (FOp.setF n v)).dirty ∧
    n ∉ (applyFOp (applyFOp o (FOp.inc n x)) (FOp.setF n v)).deleted := by
  have h1 : applyFOp o (FOp.inc n x) =
      { o with atomic := setAtomic o.atomic n (.increment x) } := by
    simp [applyFOp, stepE, h]
  have h2 : applyFOp (applyFOp o (FOp.inc n x)) (FOp.setF n v) =
      { o with
          data := setEntry o.data n v
          dirty := addName o.dirty n
          deleted := delName o.deleted n
          atomic := setAtomic o.atomic n (.increment x) } := by
    rw [h1]
    simp [applyFOp, stepE, h]
  rw [h2]
  exact ⟨lookupAtomic_setAtomic o.atomic n (.increment x),
    mem_addName_self o.dirty n, not_mem_delName_self o.deleted n⟩

theorem C2_witness :
    (mkFireObj State.LOADED []).state ≠ State.DELETED ∧
    lookupAtomic (applyFOp (applyFOp (mkFireObj State.LOADED [])
        (FOp.inc "score" (-5))) (FOp.setF "score" (Val.prim 100))).atomic
      "score" = some (AtomicOp.increment (-5)) ∧
    "score" ∈ (applyFOp (applyFOp (mkFireObj State.LOADED [])
        (FOp.inc "score" (-5))) (FOp.setF "score" (Val.prim 100))).dirty := by
  have h := C2_direct_write_keeps_atomic (mkFireObj State.LOADED [])
    "score" (-5) (Val.prim 100) (by simp [mkFireObj])
  exact ⟨by simp [mkFireObj], h.1, h.2.1⟩

/-- C7 counterexample: the claim says an invalid field name raises on
top-level field assignment too, but `BaseFireObject.__setattr__` performs
no field-name validation: assigning to the reserved name `__bad__` on a
LOADED object succeeds, stores the value, and marks the field dirty, even
though `validate_field_name` rejects that name. -/
theorem C7_counterexample :
    validate_field_name "__bad__" 0 = .error .dunderName ∧
    stepE (mkFireObj State.LOADED []) (FOp.setF "__bad__" (Val.prim 1)) =
      .ok ⟨State.LOADED, [("__bad__", Val.prim 1)], ["__bad__"], [], []⟩ := by
  exact ⟨rfl, rfl⟩

/-- An invalid field name in the sense of claim C7: empty, carrying
leading/trailing whitespace, or matching the double-underscore pattern. -/
def invalidName (name : String) : Prop :=
  name.isEmpty = true ∨ pyStrip name ≠ name ∨
    (startsDunder name && endsDunder name) = true

/-- C7 (amended): a field name that is empty, has edge whitespace, or both
starts and ends with double underscores raises `FirestoreConstraintError`
on item assignment inside a nested `ProxiedMap` — the name is not stored
and no field is marked dirty — but top-level assignment through
`BaseFireObject.__setattr__` performs no validation: on any non-DELETED
object it stores the invalid name in `_data` and marks it dirty. -/
theorem C7_invalid_names (name : String) (d : Nat) (f : String)
    (es : List (String × Val)) (v : Val) (o : FireObj)
    (hinv : invalidName name) (hstate : o.state ≠ State.DELETED) :
    (∃ e, validate_field_name name d = .error e) ∧
    (mapSetItem f d es name v).err.isSome = true ∧
    (mapSetItem f d es name v).data = es ∧
    (mapSetItem f d es name v).reports = [] ∧
    stepE o (FOp.setF name v) =
      .ok { o with
          data := setEntry o.data name v
          dirty := addName o.dirty name
          deleted := delName o.deleted name } := by
  have hval : ∃ e, validate_field_name name d = .error e := by
    cases hv : validate_field_name name d with
    | ok u =>
      cases u
      have h := (validate_field_name_ok_iff name d).mp hv
      rcases hinv with h1 | h1 | h1
      · rw [h.1] at h1; exact Bool.noConfusion h1
      · exact absurd h.2.2.1 h1
      · rw [h.2.1] at h1; exact Bool.noConfusion h1
    | error e => exact ⟨e, rfl⟩
  obtain ⟨e, he⟩ := hval
  have hmap : mapSetItem f d es name v =
      ⟨es, [], none, none, some (.constraint e)⟩ := by
    unfold mapSetItem
    rw [he]
  refine ⟨⟨e, he⟩, by rw [hmap]; rfl, by rw [hmap], by rw [hmap], ?_⟩
  simp [stepE, hstate]

theorem C7_witness :
    invalidName " pad" ∧
    (mapSetItem "cfg" 0 [] " pad" (Val.prim 1)).err.isSome = true ∧
    (mapSetItem "cfg" 0 [] " pad" (Val.prim 1)).data = [] ∧
    stepE (mkFireObj State.LOADED []) (FOp.setF " pad" (Val.prim 1)) =
      .ok ⟨State.LOADED, [(" pad", Val.prim 1)], [" pad"], [], []⟩ := by
  have hinv : invalidName " pad" := Or.inr (Or.inl (by decide))
  have h := C7_invalid_names " pad" 0 "cfg" [] (Val.prim 1)
    (mkFireObj State.LOADED []) hinv (by simp [mkFireObj])
  exact ⟨hinv, h.2.1, h.2.2.1, h.2.2.2.2⟩

/-- C8 counterexample: the claim says `delete()` on a still-unsaved
DETACHED proxy succeeds as a local-only transition, but
`FireObject.delete` raises ValueError ("Cannot delete() a DETACHED
FireObject") before doing anything. -/
theorem C8_counterexample :
    deleteStep State.DETACHED = .error PyErr.valueErr := rfl

/-- C8 (amended): `delete()` on a DETACHED proxy raises the
identity-required violation (ValueError), exactly as `fetch()` does — no
local-only transition to DELETED happens and no remote call is made; on
ATTACHED and LOADED proxies `delete()` issues the remote delete and
transitions to DELETED, and on a DELETED proxy it raises the
terminal-state violation. -/
theorem C8_detached_delete :
    deleteStep State.DETACHED = .error PyErr.valueErr ∧
    fetchStep State.DETACHED false = .error PyErr.valueErr ∧
    deleteStep State.ATTACHED = .ok (State.DELETED, true) ∧
    deleteStep State.LOADED = .ok (State.DELETED, true) ∧
    deleteStep State.DELETED = .error PyErr.runtimeErr := by
  exact ⟨rfl, rfl, rfl, rfl, rfl⟩

end FireProx
